import Mathlib

set_option synthInstance.maxHeartbeats 1000000
set_option maxHeartbeats 1000000

/-!
Verification of the textanalysis-tool specification against a shallow
embedding of its source (the compiled `Tools` namespace in
`src/unnamed/part_000` and the TypeScript extensions in
`src/unnamed/part_001`).

Conventions of the embedding:
* JS strings are Lean `String`s / `List Char`; JS numbers appearing in the
  analytic formulas are rationals (`ℚ`); `x / 0 = 0` in `ℚ` coincides with
  the source's `|| 0` guard at the single place a division by zero can
  occur (`TextDiff.compare`).
* JS objects used as ordered string-keyed maps are association lists
  (`List (String × _)`), preserving insertion order as JS does.
* Fallible methods return `Except String _`, the error message being the
  `Error` message thrown by the source.
* External collaborators (the `natural` lexicon scorer, the wink model,
  the compromise tagger, the loaded stopword/IDF caches) are parameters
  of the functions that consume their outputs, exactly at the call
  boundary visible in the source.
-/

/-- JS `\s` whitespace used by `split(/\s+/)` and `trim()` (ASCII part;
the exotic Unicode space code points are irrelevant to every claim). -/
def isJsSpace (c : Char) : Bool :=
  c = ' ' || c = '\t' || c = '\n' || c = '\r' || c = Char.ofNat 11 || c = Char.ofNat 12

/-- JS `text.trim()` on a character list. -/
def jsTrim (l : List Char) : List Char :=
  ((l.dropWhile isJsSpace).reverse.dropWhile isJsSpace).reverse

/-- The maximal runs of characters satisfying `p` (the accumulator `cur`
holds the current run in reverse). -/
def charRunsAux (p : Char → Bool) (cur : List Char) : List Char → List (List Char)
  | [] => if cur.isEmpty then [] else [cur.reverse]
  | c :: rest =>
    if p c then charRunsAux p (c :: cur) rest
    else if cur.isEmpty then charRunsAux p [] rest
    else cur.reverse :: charRunsAux p [] rest

/-- JS `text.split(/\s+/).filter(w => w.length > 0)`: the whitespace-run
tokenisation shared by `TextDiff.compare` and `Analyser.countWords`.
Splitting on whitespace runs and dropping the empty fragments yields
exactly the maximal runs of non-whitespace characters. -/
def jsWords (t : String) : List String :=
  (charRunsAux (fun c => !isJsSpace c) [] t.data).map String.mk

/-- First-occurrence deduplication, the iteration order of a JS
`Set`/`Map` built by insertion (`new Set([...keys1, ...keys2])`). -/
def jsDedupAux (seen : List String) : List String → List String
  | [] => []
  | x :: xs => if x ∈ seen then jsDedupAux seen xs else x :: jsDedupAux (x :: seen) xs

/-- `jsDedup l` keeps the first occurrence of each element of `l`. -/
def jsDedup (l : List String) : List String :=
  jsDedupAux [] l

namespace TextDiff

/-- One `counts.set(w, (counts.get(w) || 0) + 1)` step of
`TextDiff.compare`'s local `countWords` (updating in place keeps the
key's position, a fresh key is appended, as in a JS `Map`). -/
def bumpCount (m : List (String × Nat)) (w : String) : List (String × Nat) :=
  match m.lookup w with
  | some n => m.map (fun p => if p.1 = w then (p.1, n + 1) else p)
  | none => m ++ [(w, 1)]

/-- `countWords` of `TextDiff.compare` (src/unnamed/part_001 lines 713-717):
word → occurrence count as an insertion-ordered map. -/
def countWords (ws : List String) : List (String × Nat) :=
  ws.foldl bumpCount []

/-- `counts.get(word) || 0`. -/
def getCount (m : List (String × Nat)) (w : String) : Nat :=
  (m.lookup w).getD 0

/-- `wordDifference` part of a `TextDiffResult`. -/
structure WordDifference where
  added : List String
  removed : List String
  unchanged : List String
  addedCount : Nat
  removedCount : Nat
  unchangedCount : Nat
deriving DecidableEq, Repr

/-- Result shape of `TextDiff.compare`; `editDistance` and
`commonSubstrings` are the reserved always-trivial fields of the source. -/
structure TextDiffResult where
  similarity : ℚ
  editDistance : Nat
  commonSubstrings : List (String × Nat)
  wordDifference : WordDifference
deriving DecidableEq, Repr

/-- `TextDiff.compare` (src/unnamed/part_001 lines 705-756, identical to
part_000 lines 1407-1458).  `List.replicate` renders the
`for (let i = 0; ...) push(word)` loops; ℕ-subtraction renders the
`c2 > c1` guards (both give nothing when the difference is not positive).
The `|| 0` on `similarity` (NaN guard when both token lists are empty)
coincides with `ℚ`'s `x / 0 = 0`. -/
def compare (text1 text2 : String) : TextDiffResult :=
  let words1 := jsWords text1
  let words2 := jsWords text2
  let counts1 := countWords words1
  let counts2 := countWords words2
  let allWords := jsDedup (counts1.map Prod.fst ++ counts2.map Prod.fst)
  let unchanged := allWords.flatMap (fun w => List.replicate (min (getCount counts1 w) (getCount counts2 w)) w)
  let added := allWords.flatMap (fun w => List.replicate (getCount counts2 w - getCount counts1 w) w)
  let removed := allWords.flatMap (fun w => List.replicate (getCount counts1 w - getCount counts2 w) w)
  let matched := unchanged.length  -- `matches` in the source (keyword in Lean)
  let similarity : ℚ := 2 * (matched : ℚ) / ((words1.length : ℚ) + (words2.length : ℚ)) * 100
  { similarity := similarity
    editDistance := 0
    commonSubstrings := []
    wordDifference :=
      { added := added
        removed := removed
        unchanged := unchanged
        addedCount := added.length
        removedCount := removed.length
        unchangedCount := unchanged.length } }

end TextDiff

/-- The number of shared word occurrences of two texts, counted with
multiplicity over their whitespace-split word multisets (the quantity the
specification's Dice formula is stated in). -/
def sharedWordCount (a b : String) : Nat :=
  Multiset.card ((jsWords a : Multiset String) ∩ (jsWords b : Multiset String))

/-- JS object property assignment `m[k] = v` on an insertion-ordered map:
an existing key keeps its position, a new key is appended. -/
def upsert {α : Type} (m : List (String × α)) (k : String) (v : α) : List (String × α) :=
  if (m.lookup k).isSome then m.map (fun p => if p.1 = k then (k, v) else p)
  else m ++ [(k, v)]

/-- `SentimentResult` (src/unnamed/part_001 lines 335-341). -/
structure SentimentResult where
  score : ℚ
  positiveWordCount : Nat
  negativeWordCount : Nat
  totalWords : Nat
  classification : String
deriving DecidableEq, Repr

/-- `ReadabilityResult` (src/unnamed/part_001 lines 505-515). -/
structure ReadabilityResult where
  readabilityScore : ℚ
  gradeLevel : ℚ
  smogIndex : ℚ
  wordCount : Nat
  sentenceCount : Nat
  syllableCount : Nat
  avgWordsPerSentence : ℚ
  avgSyllablesPerWord : ℚ
  complexity : String
deriving DecidableEq, Repr

/-- One alternative-language entry of a `LanguageDetectionResult`. -/
structure LanguageAlternative where
  language : String
  languageName : String
  confidence : ℚ
deriving DecidableEq, Repr

/-- `LanguageDetectionResult` (src/unnamed/part_001 lines 688-698). -/
structure LanguageDetectionResult where
  detectedLanguage : String
  languageName : String
  confidence : ℚ
  scores : List (String × ℚ)
  alternativeLanguages : List LanguageAlternative
deriving DecidableEq, Repr

/-- Per-operation configuration payload a caller may put in the options
map (the object fields read by `truncateText`, `extractKeywords` and
`compareTexts`). -/
structure OpConfig where
  maxLength : Option Nat := none
  suffix : Option String := none
  topN : Option Nat := none
  compareWith : Option String := none
deriving DecidableEq, Repr

/-- A value of the options map: `true | false | config-object`. -/
inductive OptValue where
  | boolean (b : Bool)
  | config (c : OpConfig)
deriving DecidableEq, Repr

/-- JS truthiness of an options value as tested by `if (enabled)` in
`Analyser.main`: a config object is itself the enabled signal. -/
def OptValue.truthy : OptValue → Bool
  | .boolean b => b
  | .config _ => true

/-- The `Operations` enum (src/unnamed/part_000 lines 51-81):
(symbolic key, string value) in declaration order. -/
def builtinOperationPairs : List (String × String) :=
  [("RemovePunctuations", "removepunc"),
   ("RemoveNumbers", "removenum"),
   ("RemoveAlphabets", "removealpha"),
   ("RemoveSpecialChars", "removespecialchar"),
   ("RemoveNewlines", "newlineremover"),
   ("RemoveExtraSpaces", "extraspaceremover"),
   ("ExtractUrls", "extractUrls"),
   ("ExtractEmails", "extractEmails"),
   ("ExtractPhoneNumbers", "extractPhoneNumbers"),
   ("ExtractHashtags", "extractHashtags"),
   ("ExtractMentions", "extractMentions"),
   ("ConvertToUppercase", "fullcaps"),
   ("ConvertToLowercase", "lowercaps"),
   ("ConvertToTitleCase", "titlecase"),
   ("CountCharacters", "charcount"),
   ("CountAlphabets", "alphacount"),
   ("CountNumbers", "numcount"),
   ("CountAlphanumeric", "alphanumericcount"),
   ("CountWords", "wordcount"),
   ("CountSentences", "sentencecount"),
   ("ReverseText", "reversetext"),
   ("Truncate", "truncate"),
   ("ExtractKeywords", "extractKeywords"),
   ("AnalyzeSentiment", "analyzeSentiment"),
   ("SummarizeText", "summarizeText"),
   ("CalculateReadability", "calculateReadability"),
   ("DetectLanguage", "detectLanguage"),
   ("CompareTexts", "compareTexts")]

/-- The keys of the compiled string-enum object `Operations`: a JS string
enum has only the forward mapping, so `Operations[x]` is truthy exactly
for these 28 symbolic keys, never for a string value like "truncate". -/
def builtinOperationKeys : List String :=
  builtinOperationPairs.map Prod.fst

/-- The string values of the `Operations` enum. -/
def builtinOperationValues : List String :=
  builtinOperationPairs.map Prod.snd

/-- The keys of the `operationHandlers` getter (src/unnamed/part_000
lines 163-193): every enum value except `"summarizeText"`, which has no
handler in the source. -/
def operationHandlerKeys : List String :=
  builtinOperationValues.filter (fun v => v ≠ "summarizeText")

/-- The mutable session state of an `Analyser` instance (fields
initialised in the constructor, src/unnamed/part_000 lines 93-125).
`customOperations` keeps the registered custom identifiers in insertion
order; the captured handler closures are supplied separately to
`runOptions` (functions are not stored in the state so that concrete
states remain decidably comparable).  The two `performance.now()`
timestamps are wall-clock readings outside the embedding. -/
structure AnalyserState where
  raw_text : String
  count : Nat := 0
  alphacount : Nat := 0
  numericcount : Nat := 0
  wordCount : Nat := 0
  sentenceCount : Nat := 0
  urls : List String := []
  emails : List String := []
  phoneNumbers : List String := []
  hashtags : List String := []
  mentions : List String := []
  keywords : List String := []
  metadataCustom : List (String × List (String × String)) := []
  operations : List String := []
  customOperationsList : List String := []
  builtInOperationsList : List String := []
  customOperations : List String := []
  builtInOptions : List (String × OptValue) := []
  sentiment : Option SentimentResult := none
  readability : Option ReadabilityResult := none
  language : Option LanguageDetectionResult := none
  comparison : Option TextDiff.TextDiffResult := none
deriving DecidableEq, Repr

namespace Analyser

/-- The constructor `new Analyser(raw_text, options)`; the
`typeof raw_text !== "string"` throw cannot arise for a Lean `String`,
and `raw_text || ""` is the identity on strings. -/
def init (raw_text : String) (options : List (String × OptValue) := []) : AnalyserState :=
  { raw_text := raw_text, builtInOptions := options }

/-- `logOperation` (src/unnamed/part_000 lines 670-678). -/
def logOperation (s : AnalyserState) (operation : String) (isCustom : Bool := false) : AnalyserState :=
  { s with
    operations := s.operations ++ [operation]
    customOperationsList :=
      if isCustom then s.customOperationsList ++ [operation] else s.customOperationsList
    builtInOperationsList :=
      if isCustom then s.builtInOperationsList else s.builtInOperationsList ++ [operation] }

/-- `resetText` (src/unnamed/part_000 lines 640-662): optionally replace
the buffer, zero the counters, empty the extraction collections, empty
`operations`, then log `"Text Reset"` as a built-in operation. -/
def resetText (s : AnalyserState) (newText : Option String := none) : AnalyserState :=
  let s₁ := match newText with
    | some t => { s with raw_text := t }
    | none => s
  let s₂ := { s₁ with
    count := 0, alphacount := 0, numericcount := 0, wordCount := 0, sentenceCount := 0,
    urls := [], emails := [], phoneNumbers := [], hashtags := [],
    keywords := [], mentions := [],
    operations := [] }
  logOperation s₂ "Text Reset"

/-- `truncateText` (src/unnamed/part_000 lines 439-450).  The source's
`!config || typeof config !== "object" || !config.maxLength` rejects a
missing entry, a boolean entry, and a config without `maxLength` (a
stored `maxLength` of `0` is falsy and also rejected). -/
def truncateText (s : AnalyserState) : Except String AnalyserState :=
  match s.builtInOptions.lookup "truncate" with
  | some (.config cfg) =>
    match cfg.maxLength with
    | some maxLength =>
      if maxLength = 0 then
        .error "Truncate operation requires a valid configuration with maxLength"
      else
        let suffix := cfg.suffix.getD "..."
        if s.raw_text.length ≤ maxLength then .ok s
        else
          .ok (logOperation
            { s with raw_text := String.mk (s.raw_text.data.take maxLength) ++ suffix }
            ("Truncated Text to " ++ toString maxLength ++ " characters"))
    | none => .error "Truncate operation requires a valid configuration with maxLength"
  | some (.boolean _) => .error "Truncate operation requires a valid configuration with maxLength"
  | none => .error "Truncate operation requires a valid configuration with maxLength"

/-- The `config` argument of `addCustomOperation`; `operation` is
`Option`-valued to render the `typeof config.operation !== "function"`
check. -/
structure CustomOpConfig where
  operation : Option (String → String)
  isEnabled : Option Bool := none
  metadata : Option (List (String × String)) := none
  metadataExtractor : Option (String → List (String × String)) := none

/-- `addCustomOperation` (src/unnamed/part_000 lines 531-577).  The
duplicate test is `Operations[commandName] || this.customOperations[commandName]`:
on a compiled string enum the first disjunct is truthy exactly for the
symbolic keys (`builtinOperationKeys`), not for enum string values.  On
success the identifier is registered and
`builtInOptions[commandName] = config.isEnabled ?? false` is set. -/
def addCustomOperation (s : AnalyserState) (commandName logName : String)
    (config : CustomOpConfig) : Except String AnalyserState :=
  if commandName = "" then .error "Command name must be a non-empty string"
  else if logName = "" then .error "Log name must be a non-empty string"
  else if config.operation.isNone then .error "Operation must be a function"
  else if commandName ∈ builtinOperationKeys || commandName ∈ s.customOperations then
    .error ("Operation \"" ++ commandName ++ "\" already exists")
  else
    .ok { s with
      customOperations := s.customOperations ++ [commandName]
      builtInOptions := upsert s.builtInOptions commandName (.boolean (config.isEnabled.getD false)) }

/-- The data captured by the closure that `addCustomOperation` stores in
the registry for one custom identifier. -/
structure CustomOpSpec where
  operation : String → String
  logName : String
  metadata : Option (List (String × String)) := none
  metadataExtractor : Option (String → List (String × String)) := none

/-- JS object spread `{ ...a, ...b }` on string-keyed metadata payloads. -/
def mergeAssoc (a b : List (String × String)) : List (String × String) :=
  b.foldl (fun m p => upsert m p.1 p.2) a

/-- The body of the stored custom-operation closure (src/unnamed/part_000
lines 542-575): transform the text with the user operation, log the
display name as custom, then initialise/merge this operation's metadata
object (static `metadata`, then `metadataExtractor` applied to the
pre-mutation text).  The user operation is a total Lean function, so the
closure's catch branch is unreachable in the embedding. -/
def runCustomOperation (commandName : String) (spec : CustomOpSpec)
    (s : AnalyserState) : AnalyserState :=
  let originalText := s.raw_text
  let s₁ := logOperation { s with raw_text := spec.operation s.raw_text } spec.logName true
  let base :=
    if (s₁.metadataCustom.lookup commandName).isSome then s₁.metadataCustom
    else s₁.metadataCustom ++ [(commandName, [])]
  let cur := (base.lookup commandName).getD []
  let afterStatic := match spec.metadata with
    | some md => mergeAssoc cur md
    | none => cur
  let afterExtract := match spec.metadataExtractor with
    | some f => mergeAssoc afterStatic (f originalText)
    | none => afterStatic
  { s₁ with metadataCustom := upsert base commandName afterExtract }

/-- The per-analysis metadata section assembled by `getResults`. -/
structure AnalyserMetadata where
  characterCount : Nat
  alphabetCount : Nat
  numericCount : Nat
  wordCount : Nat
  sentenceCount : Nat
  urls : List String
  emails : List String
  phoneNumbers : List String
  hashtags : List String
  mentions : List String
  keywords : List String
  readability : Option ReadabilityResult
  sentiment : Option SentimentResult
  languageDetection : Option LanguageDetectionResult
  textComparison : Option TextDiff.TextDiffResult
  custom : List (String × List (String × String))
deriving DecidableEq, Repr

/-- The result snapshot returned by `main` (src/unnamed/part_000 lines
686-717); `executionTime` is the difference of two wall-clock readings
and is outside the embedding. -/
structure AnalyserResult where
  purpose : String
  output : String
  operations : List String
  builtInOperations : List String
  customOperations : List String
  metadata : AnalyserMetadata
deriving DecidableEq, Repr

/-- `getResults` (src/unnamed/part_000 lines 686-717). -/
def getResults (s : AnalyserState) : AnalyserResult :=
  { purpose := String.intercalate "," s.operations
    output := s.raw_text
    operations := s.operations
    builtInOperations := s.builtInOperationsList
    customOperations := s.customOperationsList
    metadata :=
      { characterCount := s.count
        alphabetCount := s.alphacount
        numericCount := s.numericcount
        wordCount := s.wordCount
        sentenceCount := s.sentenceCount
        urls := s.urls
        emails := s.emails
        phoneNumbers := s.phoneNumbers
        hashtags := s.hashtags
        mentions := s.mentions
        keywords := s.keywords
        readability := s.readability
        sentiment := s.sentiment
        languageDetection := s.language
        textComparison := s.comparison
        custom := s.metadataCustom } }

/-- The dispatch loop of `main` (src/unnamed/part_000 lines 728-745) over
a snapshot of the options entries: a truthy entry is dispatched to the
custom registry first, then to the built-in handler map
(`operationHandlerKeys`); an entry with no handler is skipped after a
`console.warn` (a pure no-op here).  The behaviour of each handler is
supplied by `customImpl` (the captured closures, see `runCustomOperation`)
and `builtinImpl` (the bound built-in methods); the dispatch decisions
depend only on the identifier sets, which are concrete. -/
def runOptions (customImpl : String → CustomOpSpec)
    (builtinImpl : String → AnalyserState → Except String AnalyserState) :
    List (String × OptValue) → AnalyserState → Except String AnalyserState
  | [], s => .ok s
  | (k, v) :: rest, s =>
    if v.truthy then
      if k ∈ s.customOperations then
        runOptions customImpl builtinImpl rest (runCustomOperation k (customImpl k) s)
      else if k ∈ operationHandlerKeys then
        match builtinImpl k s with
        | .ok s' => runOptions customImpl builtinImpl rest s'
        | .error e => .error e
      else runOptions customImpl builtinImpl rest s
    else runOptions customImpl builtinImpl rest s

/-- `main` (src/unnamed/part_000 lines 725-755): run the dispatch loop on
the current options and assemble the result snapshot.  A handler error is
logged into the session and re-thrown; the embedding returns it as
`Except.error`. -/
def main (customImpl : String → CustomOpSpec)
    (builtinImpl : String → AnalyserState → Except String AnalyserState)
    (s : AnalyserState) : Except String AnalyserResult :=
  (runOptions customImpl builtinImpl s.builtInOptions s).map getResults

end Analyser

namespace SentimentAnalyzer

/-- `classifySentiment` (src/unnamed/part_001 lines 313-317). -/
def classifySentiment (score : ℚ) : String :=
  if score ≥ 0.1 then "positive"
  else if score ≤ -0.1 then "negative"
  else "neutral"

/-- `SentimentAnalyzer.analyze` (src/unnamed/part_001 lines 258-311).
The outputs of the three external NLP collaborators are parameters taken
at the call boundary visible in the source: `naturalRawScore` is
`this.naturalAnalyzer.getSentiment(tokens)` (the lexicon average),
`tokenCount` is `tokens.length`, `winkAvailable`/`winkDocLoaded` are the
availability flags, `winkOut` is the wink read (`none` renders the throw
caught at line 275, which falls back to `0`), and
`positiveCount`/`negativeCount` are the compromise `#Positive`/`#Negative`
match counts. -/
def analyze (text : String) (naturalRawScore : ℚ)
    (winkAvailable winkDocLoaded : Bool) (winkOut : Option ℚ)
    (positiveCount negativeCount tokenCount : Nat) :
    Except String SentimentResult :=
  if text = "" then .error "Input must be a non-empty string"
  else
    let naturalScore : ℚ := max (-1) (min 1 (naturalRawScore / 3))
    let winkScore : ℚ := if winkAvailable && winkDocLoaded then winkOut.getD 0 else 0
    let compromiseScore : ℚ :=
      if positiveCount + negativeCount > 0 then
        ((positiveCount : ℚ) - (negativeCount : ℚ)) / ((positiveCount : ℚ) + (negativeCount : ℚ))
      else 0
    let weightedScore : ℚ :=
      if winkAvailable && winkDocLoaded then
        naturalScore * 0.4 + winkScore * 0.4 + compromiseScore * 0.2
      else
        naturalScore * 0.6 + compromiseScore * 0.4
    .ok { score := weightedScore
          positiveWordCount := positiveCount
          negativeWordCount := negativeCount
          totalWords := tokenCount
          classification := classifySentiment weightedScore }

end SentimentAnalyzer

namespace KeywordExtractor

/-- JS `\w` word characters. -/
def isWordChar (c : Char) : Bool :=
  c.isAlpha || c.isDigit || c = '_'

/-- `text.toLowerCase().match(/\b\w+\b/g) || []` (src/unnamed/part_001
line 362): the matches of `\b\w+\b` are exactly the maximal runs of
word characters. -/
def keywordTokens (text : String) : List String :=
  (charRunsAux isWordChar [] (text.data.map Char.toLower)).map String.mk

/-- `EXTENSION_CONSTANTS._stopwords` (src/unnamed/part_001 lines 20-94),
the built-in fallback stopword set used when the loader cache is empty. -/
def fallbackStopwords : List String :=
  ["a", "an", "the", "and", "or", "but", "if", "because", "as", "what",
   "which", "this", "that", "these", "those", "then", "just", "so", "than",
   "such", "when", "while", "to", "of", "at", "by", "for", "with", "about",
   "against", "between", "into", "through", "during", "before", "after",
   "above", "below", "from", "up", "down", "in", "out", "on", "off", "over",
   "under", "again", "further", "here", "there", "all", "any", "both",
   "each", "few", "more", "most", "other", "some", "no", "nor", "not",
   "only", "own", "same", "very", "can", "will", "is", "are", "was", "were"]

/-- One step of the term-frequency accumulation of `extractKeywords`
(src/unnamed/part_001 lines 369-374): a token that is not a stopword and
has length > 2 bumps its raw count (`TextDiff.bumpCount` is the same
`(m[w] || 0) + 1` update). -/
def tfStep (stopWords : List String) (tf : List (String × Nat)) (word : String) :
    List (String × Nat) :=
  if ¬ stopWords.contains word ∧ word.length > 2 then TextDiff.bumpCount tf word else tf

/-- The term-frequency map of `extractKeywords` over the token list. -/
def keywordTF (stopWords : List String) (text : String) : List (String × Nat) :=
  (keywordTokens text).foldl (tfStep stopWords) []

/-- `this.idfMap.get(word) || 1.5` (src/unnamed/part_001 line 383): the
JS `||` also replaces a stored value of `0` (falsy) by the `1.5` default. -/
def idfLookup (idfMap : List (String × ℚ)) (word : String) : ℚ :=
  match idfMap.lookup word with
  | some v => if v = 0 then 1.5 else v
  | none => 1.5

/-- The TF-IDF score map of `extractKeywords` (src/unnamed/part_001 lines
377-385): `scores[word] = (tf[word] / totalWords) * idf`.  `stopWords` and
`idfMap` are the loader-cache state read in the constructor. -/
def keywordScores (stopWords : List String) (idfMap : List (String × ℚ))
    (text : String) : List (String × ℚ) :=
  (keywordTF stopWords text).map
    (fun p => (p.1, ((p.2 : ℚ) / ((keywordTokens text).length : ℚ)) * idfLookup idfMap p.1))

/-- `extractKeywords` (src/unnamed/part_001 lines 361-391): rank the
score map descending (stable sort, ties keep insertion order) and keep
the first `topN` words. -/
def extractKeywords (stopWords : List String) (idfMap : List (String × ℚ))
    (text : String) (topN : Nat := 5) : List String :=
  if (keywordTokens text).isEmpty then []
  else
    (((keywordScores stopWords idfMap text).mergeSort
        (fun a b => decide (b.2 ≤ a.2))).take topN).map Prod.fst

end KeywordExtractor

/-- The sentence-terminal characters `.` `!` `?`. -/
def isTerminalChar (c : Char) : Bool :=
  c = '.' || c = '!' || c = '?'

/-- Scanner for the global regex `/[^.!?]+[.!?]+/g` used by
`Analyser.countSentences` (src/unnamed/part_000 line 413), returning the
list of matches together with the unconsumed suffix after the last match
(the whole input when there is no match).  The regex engine skips
characters at which no match can start (a leading terminal run), then
takes a maximal non-terminal run followed by a maximal terminal run as
one match.  Fuel-based structural recursion keeps the definition
computable by the kernel; any fuel exceeding the input length is enough
(each step consumes at least two characters). -/
def sentenceScanAux : Nat → List Char → List (List Char) × List Char
  | 0, l => ([], l)
  | fuel + 1, l =>
    let l₁ := l.dropWhile isTerminalChar
    let nont := l₁.takeWhile (fun c => !isTerminalChar c)
    let rest := l₁.dropWhile (fun c => !isTerminalChar c)
    match rest with
    | [] => ([], l)
    | _ :: _ =>
      let terms := rest.takeWhile isTerminalChar
      let restAfter := rest.dropWhile isTerminalChar
      let p := sentenceScanAux fuel restAfter
      ((nont ++ terms) :: p.1, p.2)

/-- The matches and trailing remainder of `/[^.!?]+[.!?]+/g` on `l`. -/
def sentenceScan (l : List Char) : List (List Char) × List Char :=
  sentenceScanAux (l.length + 1) l

/-- JS `haystack.lastIndexOf(needle)`: the greatest index at which
`needle` occurs as a contiguous substring, `-1` if it never occurs. -/
def jsLastIndexOf (l pat : List Char) : Int :=
  match ((List.range (l.length + 1)).filter
      (fun i => (l.drop i).take pat.length = pat)).getLast? with
  | some i => (i : Int)
  | none => -1

/-- `Analyser.countSentences` (src/unnamed/part_000 lines 404-422): trim;
empty → 0; otherwise count the regex matches and add one when text
remains after the last match, detected in the source through
`trimmed.lastIndexOf(lastMatch) + lastMatch.length < trimmed.length`
(or `trimmed.length > 0` when there is no match at all). -/
def countSentences (text : String) : Nat :=
  let trimmed := jsTrim text.data
  if trimmed.isEmpty then 0
  else
    let ms := (sentenceScan trimmed).1
    match ms.getLast? with
    | some lastMatch =>
      ms.length +
        (if jsLastIndexOf trimmed lastMatch + (lastMatch.length : Int) < (trimmed.length : Int)
         then 1 else 0)
    | none => ms.length + (if trimmed.length > 0 then 1 else 0)

/-- The sentence-counting policy as worded by the specification: split
the trimmed text on runs of non-terminal characters followed by one or
more of `.!?`; count one additional (incomplete) sentence when trailing
text remains after the last such run; empty or whitespace-only text
yields zero. -/
def specSentenceCount (text : String) : Nat :=
  let trimmed := jsTrim text.data
  if trimmed.isEmpty then 0
  else
    let p := sentenceScan trimmed
    p.1.length + (if p.2.isEmpty then 0 else 1)

namespace TextStatistics

/-- The vowel class `[aeiouy]` of the syllable counter. -/
def isVowel (c : Char) : Bool :=
  c = 'a' || c = 'e' || c = 'i' || c = 'o' || c = 'u' || c = 'y'

/-- The character class `[^laeiouy]` of the silent-e regex: note that the
source excludes `l` as well as the vowels. -/
def inLaeiouy (c : Char) : Bool :=
  c = 'l' || isVowel c

/-- `word.replace(/(?:[^laeiouy]es|ed|[^laeiouy]e)$/, "")`
(src/unnamed/part_001 line 469).  Anchored at the end, the alternatives
can only match starting 3 or 2 characters before the end, mutually
exclusive by the final character; matching on the reversed word renders
exactly those cases. -/
def stripSilentE (l : List Char) : List Char :=
  match l.reverse with
  | 's' :: 'e' :: x :: _ => if inLaeiouy x then l else l.take (l.length - 3)
  | 'd' :: 'e' :: _ => l.take (l.length - 2)
  | 'e' :: x :: _ => if inLaeiouy x then l else l.take (l.length - 2)
  | _ => l

/-- Scanner for the global regex `/[aeiouy]{1,2}/g`
(src/unnamed/part_001 line 472): greedily take one or two consecutive
vowels per match and count the matches. -/
def vowelGroupCount : List Char → Nat
  | [] => 0
  | [c] => if isVowel c then 1 else 0
  | c :: d :: rest =>
    if isVowel c then
      if isVowel d then 1 + vowelGroupCount rest
      else 1 + vowelGroupCount (d :: rest)
    else vowelGroupCount (d :: rest)

/-- The lengths of the maximal runs of consecutive vowels of a word, in
order (the decomposition the specification's wording is stated in). -/
def maximalVowelRuns : List Char → List Nat
  | [] => []
  | c :: rest =>
    let rs := maximalVowelRuns rest
    if isVowel c then
      match rest.head? with
      | some d =>
        if isVowel d then
          match rs with
          | n :: t => (n + 1) :: t
          | [] => [1]
        else 1 :: rs
      | none => [1]
    else rs

/-- A maximal vowel run of length `k` contributes `⌈k / 2⌉` matches of
`[aeiouy]{1,2}`. -/
def ceilHalf (n : Nat) : Nat :=
  (n + 1) / 2

/-- `TextStatistics.countSyllables` (src/unnamed/part_001 lines 462-474):
empty word → 0; lower-case and trim; length ≤ 3 → 1; otherwise strip the
trailing silent-e pattern and count the `[aeiouy]{1,2}` matches, with a
minimum of 1 when no vowel group is found (`null` match). -/
def countSyllables (word : String) : Nat :=
  if word = "" then 0
  else
    let w := jsTrim (word.data.map Char.toLower)
    if w.length ≤ 3 then 1
    else
      let stripped := stripSilentE w
      let k := vowelGroupCount stripped
      if k = 0 then 1 else k

/-- The silent-e strip as worded by the claim: the leading character of
the stripped pattern is any non-vowel (`[^aeiouy]`), i.e. `l` is NOT
excluded.  This is the only difference from `stripSilentE`. -/
def claimStripSilentE (l : List Char) : List Char :=
  match l.reverse with
  | 's' :: 'e' :: x :: _ => if isVowel x then l else l.take (l.length - 3)
  | 'd' :: 'e' :: _ => l.take (l.length - 2)
  | 'e' :: x :: _ => if isVowel x then l else l.take (l.length - 2)
  | _ => l

/-- The syllable counter exactly as the claim words it (comparison
definition for the refinement check): length ≤ 3 → 1; strip a trailing
silent-e pattern whose lead character is any non-vowel; then count the
maximal runs of 1 or 2 consecutive characters from `[aeiouy]`, minimum 1
when no vowel run remains. -/
def claimSyllables (word : String) : Nat :=
  let w := word.data
  if w.length ≤ 3 then 1
  else
    let stripped := claimStripSilentE w
    let k := ((maximalVowelRuns stripped).map ceilHalf).sum
    if k = 0 then 1 else k

/-- The claim amended to the source's behaviour: empty word → 0;
lower-case and trim; length ≤ 3 → 1; strip a trailing `[^laeiouy]es`,
bare `ed`, or `[^laeiouy]e` (the lead character is any character that is
neither a vowel nor `l`); then count the maximal vowel runs, a run of
length `k` counting as `⌈k / 2⌉` syllables, minimum 1 in total. -/
def amendedSyllables (word : String) : Nat :=
  if word = "" then 0
  else
    let w := jsTrim (word.data.map Char.toLower)
    if w.length ≤ 3 then 1
    else
      let stripped := stripSilentE w
      let k := ((maximalVowelRuns stripped).map ceilHalf).sum
      if k = 0 then 1 else k

end TextStatistics

/-! ## Theorems -/

/-- C2: for a `Truncate` configuration with `maxLength = N > 0` and
suffix `S` (default `"..."`): the operation leaves the text unchanged
when `len(T) ≤ N`, otherwise replaces it by the first `N` characters
followed by `S`, giving length `N + len(S)`; a missing configuration or a
configuration without `maxLength` fails with the configuration error. -/
theorem truncateText_spec (s : AnalyserState) (N : Nat) (S : String) (cfg : OpConfig)
    (hlook : s.builtInOptions.lookup "truncate" = some (.config cfg))
    (hmax : cfg.maxLength = some N) (hpos : 0 < N)
    (hsuf : cfg.suffix.getD "..." = S) :
    (s.raw_text.length ≤ N → Analyser.truncateText s = .ok s) ∧
    (N < s.raw_text.length →
      ∃ s', Analyser.truncateText s = .ok s' ∧
        s'.raw_text = String.mk (s.raw_text.data.take N) ++ S ∧
        s'.raw_text.length = N + S.length) ∧
    (∀ s₂ : AnalyserState,
      (s₂.builtInOptions.lookup "truncate" = none ∨
       ∃ c, s₂.builtInOptions.lookup "truncate" = some (.config c) ∧ c.maxLength = none) →
      Analyser.truncateText s₂ =
        .error "Truncate operation requires a valid configuration with maxLength") := by
  refine ⟨?_, ?_, ?_⟩
  · intro hle
    simp only [Analyser.truncateText, hlook, hmax]
    rw [if_neg (by omega)]
    simp [hle]
  · intro hgt
    refine ⟨Analyser.logOperation
        { s with raw_text := String.mk (s.raw_text.data.take N) ++ S }
        ("Truncated Text to " ++ toString N ++ " characters"), ?_, ?_, ?_⟩
    · simp only [Analyser.truncateText, hlook, hmax]
      rw [if_neg (by omega)]
      rw [if_neg (by omega)]
      simp [hsuf]
    · simp [Analyser.logOperation]
    · have htake : (s.raw_text.data.take N).length = N := by
        simp [List.length_take]
        omega
      show (String.mk (s.raw_text.data.take N) ++ S).length = N + S.length
      rw [String.length_append]
      show (s.raw_text.data.take N).length + S.length = N + S.length
      rw [htake]
  · intro s₂ h
    rcases h with h | ⟨c, hc, hcm⟩
    · simp [Analyser.truncateText, h]
    · simp [Analyser.truncateText, hc, hcm]

/-- Witness for `truncateText_spec` at a concrete session: text
"Hello World" with `maxLength = 5`, default suffix. -/
theorem truncateText_spec_witness :
    ∃ s', Analyser.truncateText
        (Analyser.init "Hello World" [("truncate", .config { maxLength := some 5 })]) = .ok s' ∧
      s'.raw_text = String.mk ((("Hello World" : String)).data.take 5) ++ "..." ∧
      s'.raw_text.length = 5 + ("..." : String).length :=
  (truncateText_spec
    (Analyser.init "Hello World" [("truncate", .config { maxLength := some 5 })])
    5 "..." { maxLength := some 5 } (by rfl) (by rfl) (by decide) (by rfl)).2.1 (by decide)

/-- C7: with the secondary (wink) model unavailable, the ensemble score
is `0.6 · lexiconScore + 0.4 · heuristicScore`, the lexicon score being
the lexicon average divided by 3 and clamped to `[-1, 1]`, and the
heuristic score `(pos − neg)/(pos + neg)` when `pos + neg > 0`, else 0. -/
theorem analyze_fallback_weighting (text : String) (naturalRawScore : ℚ)
    (winkAvailable winkDocLoaded : Bool) (winkOut : Option ℚ)
    (pos neg total : Nat)
    (htext : text ≠ "")
    (hwink : winkAvailable = false ∨ winkDocLoaded = false) :
    SentimentAnalyzer.analyze text naturalRawScore winkAvailable winkDocLoaded winkOut pos neg total =
      .ok { score := 0.6 * max (-1) (min 1 (naturalRawScore / 3)) +
                     0.4 * (if pos + neg > 0 then ((pos : ℚ) - (neg : ℚ)) / ((pos : ℚ) + (neg : ℚ)) else 0)
            positiveWordCount := pos
            negativeWordCount := neg
            totalWords := total
            classification := SentimentAnalyzer.classifySentiment
              (0.6 * max (-1) (min 1 (naturalRawScore / 3)) +
               0.4 * (if pos + neg > 0 then ((pos : ℚ) - (neg : ℚ)) / ((pos : ℚ) + (neg : ℚ)) else 0)) } := by
  have hc : (winkAvailable && winkDocLoaded) = false := by
    rcases hwink with h | h <;> simp [h]
  simp only [SentimentAnalyzer.analyze, hc, if_neg htext, Bool.false_eq_true, if_false]
  have harith : ∀ a b : ℚ, a * 0.6 + b * 0.4 = 0.6 * a + 0.4 * b := by
    intro a b; ring
  rw [harith]

/-- Witness for `analyze_fallback_weighting`: a non-empty text, lexicon
average 3, one positive tag, no wink model. -/
theorem analyze_fallback_weighting_witness :
    SentimentAnalyzer.analyze "good work" 3 false false none 1 0 2 =
      .ok { score := 0.6 * max (-1) (min 1 ((3 : ℚ) / 3)) +
                     0.4 * (if 1 + 0 > 0 then ((1 : ℚ) - (0 : ℚ)) / ((1 : ℚ) + (0 : ℚ)) else 0)
            positiveWordCount := 1
            negativeWordCount := 0
            totalWords := 2
            classification := SentimentAnalyzer.classifySentiment
              (0.6 * max (-1) (min 1 ((3 : ℚ) / 3)) +
               0.4 * (if 1 + 0 > 0 then ((1 : ℚ) - (0 : ℚ)) / ((1 : ℚ) + (0 : ℚ)) else 0)) } :=
  analyze_fallback_weighting "good work" 3 false false none 1 0 2 (by decide) (Or.inl rfl)

/-- C9: an options entry whose value is truthy but whose key matches no
custom handler and no built-in handler is skipped without an error (a
`console.warn` only) and execution continues with the remaining enabled
operations, so `main` still assembles its result snapshot from the
surviving run. -/
theorem main_unknown_operation_skipped
    (customImpl : String → Analyser.CustomOpSpec)
    (builtinImpl : String → AnalyserState → Except String AnalyserState)
    (s : AnalyserState) (k : String) (v : OptValue) (rest : List (String × OptValue))
    (hv : v.truthy = true)
    (hb : k ∉ operationHandlerKeys)
    (hc : k ∉ s.customOperations) :
    Analyser.runOptions customImpl builtinImpl ((k, v) :: rest) s =
      Analyser.runOptions customImpl builtinImpl rest s := by
  simp [Analyser.runOptions, hv, hb, hc]

/-- Witness for `main_unknown_operation_skipped`: the unknown key
`"notARealOperation"` enabled with `true` on a fresh session. -/
theorem main_unknown_operation_skipped_witness :
    Analyser.runOptions (fun _ => ⟨id, "x", none, none⟩) (fun _ => .ok)
        [("notARealOperation", .boolean true)] (Analyser.init "text" []) =
      Analyser.runOptions (fun _ => ⟨id, "x", none, none⟩) (fun _ => .ok) []
        (Analyser.init "text" []) :=
  main_unknown_operation_skipped (fun _ => ⟨id, "x", none, none⟩) (fun _ => .ok)
    (Analyser.init "text" []) "notARealOperation" (.boolean true) []
    (by decide) (by decide) (by decide)

/-- C1 counterexample: on a session holding a sentiment result and a
text-comparison result (as produced by the `analyzeSentiment` and
`compareTexts` handlers), `resetText` neither clears those analytic
results nor leaves the operation log empty — it logs `"Text Reset"` —
so the claim's conjunction fails at this concrete session. -/
theorem resetText_spec_counterexample :
    ¬ (let s : AnalyserState :=
        { Analyser.init "a b" [] with
          sentiment := some ⟨1, 2, 0, 2, "positive"⟩
          comparison := some ((TextDiff.compare "a b" "a b"))
          operations := ["Analysed Sentiment", "Compared Texts (100.00% similarity)"] }
       let s' := Analyser.resetText s none
       s'.count = 0 ∧ s'.alphacount = 0 ∧ s'.numericcount = 0 ∧
       s'.wordCount = 0 ∧ s'.sentenceCount = 0 ∧
       s'.urls = [] ∧ s'.emails = [] ∧ s'.phoneNumbers = [] ∧
       s'.hashtags = [] ∧ s'.mentions = [] ∧ s'.keywords = [] ∧
       s'.sentiment = none ∧ s'.readability = none ∧
       s'.language = none ∧ s'.comparison = none ∧
       s'.operations = [] ∧
       s'.customOperations = s.customOperations) := by
  intro h
  exact absurd h.2.2.2.2.2.2.2.2.2.2.2.1 (by decide)

/-- C1 amended: after `resetText` (optionally with a new text) the
counters are zero, the extraction collections are empty, and the custom
registrations, options, and custom-metadata survive — but the stored
sentiment, readability, language-detection and text-comparison results
persist unchanged, and the operation log is not empty: it holds exactly
the single entry `"Text Reset"` (also appended to the built-in log view,
which is itself not cleared). -/
theorem resetText_amended (s : AnalyserState) (newText : Option String) :
    (Analyser.resetText s newText).raw_text = newText.getD s.raw_text ∧
    (Analyser.resetText s newText).count = 0 ∧
    (Analyser.resetText s newText).alphacount = 0 ∧
    (Analyser.resetText s newText).numericcount = 0 ∧
    (Analyser.resetText s newText).wordCount = 0 ∧
    (Analyser.resetText s newText).sentenceCount = 0 ∧
    (Analyser.resetText s newText).urls = [] ∧
    (Analyser.resetText s newText).emails = [] ∧
    (Analyser.resetText s newText).phoneNumbers = [] ∧
    (Analyser.resetText s newText).hashtags = [] ∧
    (Analyser.resetText s newText).mentions = [] ∧
    (Analyser.resetText s newText).keywords = [] ∧
    (Analyser.resetText s newText).operations = ["Text Reset"] ∧
    (Analyser.resetText s newText).builtInOperationsList = s.builtInOperationsList ++ ["Text Reset"] ∧
    (Analyser.resetText s newText).customOperationsList = s.customOperationsList ∧
    (Analyser.resetText s newText).customOperations = s.customOperations ∧
    (Analyser.resetText s newText).builtInOptions = s.builtInOptions ∧
    (Analyser.resetText s newText).metadataCustom = s.metadataCustom ∧
    (Analyser.resetText s newText).sentiment = s.sentiment ∧
    (Analyser.resetText s newText).readability = s.readability ∧
    (Analyser.resetText s newText).language = s.language ∧
    (Analyser.resetText s newText).comparison = s.comparison := by
  cases newText <;>
    simp [Analyser.resetText, Analyser.logOperation, Option.getD]

/-- C3 counterexample: registering a custom operation whose id is the
string value `"truncate"` of the built-in `Truncate` operation does not
fail — the compiled string enum has no reverse mapping, so
`Operations["truncate"]` is undefined — and the handler IS added to the
registry (it will shadow the built-in, because `main` consults the custom
registry first). -/
theorem addCustomOperation_value_collision_counterexample :
    ("truncate" ∈ builtinOperationValues) ∧
    Analyser.addCustomOperation (Analyser.init "abc" []) "truncate" "Custom Truncate"
        { operation := some (fun t => t) } =
      .ok { Analyser.init "abc" [] with
            customOperations := ["truncate"]
            builtInOptions := [("truncate", .boolean false)] } :=
  ⟨by decide, rfl⟩

/-- C3 amended: `addCustomOperation` (with otherwise valid arguments)
fails with the duplicate-operation error, adding nothing, exactly when
the id collides with a built-in *symbolic key* (such as `"Truncate"`) or
an already-registered custom identifier; a built-in *string value* such
as `"truncate"` is not a collision. -/
theorem addCustomOperation_duplicate (s : AnalyserState)
    (commandName logName : String) (config : Analyser.CustomOpConfig)
    (hcmd : commandName ≠ "") (hlog : logName ≠ "") (hop : config.operation.isSome)
    (hdup : commandName ∈ builtinOperationKeys ∨ commandName ∈ s.customOperations) :
    Analyser.addCustomOperation s commandName logName config =
      .error ("Operation \"" ++ commandName ++ "\" already exists") := by
  have hop' : config.operation.isNone = false := by
    cases h : config.operation with
    | some f => rfl
    | none => rw [h] at hop; exact absurd hop (by decide)
  simp [Analyser.addCustomOperation, hcmd, hlog, hop', hdup]

/-- Witness for `addCustomOperation_duplicate`: the symbolic key
`"Truncate"` on a fresh session. -/
theorem addCustomOperation_duplicate_witness :
    Analyser.addCustomOperation (Analyser.init "abc" []) "Truncate" "Log"
        { operation := some (fun t => t) } =
      .error ("Operation \"" ++ "Truncate" ++ "\" already exists") :=
  addCustomOperation_duplicate (Analyser.init "abc" []) "Truncate" "Log"
    { operation := some (fun t => t) } (by decide) (by decide) rfl (Or.inl (by decide))

/-- `List.lookup` on a cons cell, with a propositional `if`. -/
theorem lookup_cons_eq {β : Type} (k v : String) (b : β) (t : List (String × β)) :
    List.lookup v ((k, b) :: t) = if v = k then some b else List.lookup v t := by
  rw [List.lookup]
  by_cases h : v = k
  · have hb : (v == k) = true := by simp [h]
    rw [hb, if_pos h]
  · have hb : (v == k) = false := by simp [h]
    rw [hb, if_neg h]

/-- Looking up a key that misses the first map continues in the second. -/
theorem lookup_append_of_none {β : Type} (m₁ m₂ : List (String × β)) (w : String)
    (h : m₁.lookup w = none) : (m₁ ++ m₂).lookup w = m₂.lookup w := by
  induction m₁ with
  | nil => rfl
  | cons p t ih =>
    obtain ⟨k, b⟩ := p
    rw [lookup_cons_eq] at h
    rw [List.cons_append, lookup_cons_eq]
    by_cases hk : w = k
    · simp [hk] at h
    · rw [if_neg hk] at h ⊢
      exact ih h

/-- The in-place value update of `bumpCount`/`upsert` leaves the lookup
of every other key unchanged. -/
theorem lookup_map_update {β : Type} (m : List (String × β)) (w v : String) (n : β)
    (hvw : v ≠ w) :
    (m.map (fun p => if p.1 = w then (p.1, n) else p)).lookup v = m.lookup v := by
  induction m with
  | nil => rfl
  | cons p t ih =>
    obtain ⟨k, nv⟩ := p
    by_cases hk : k = w
    · subst hk
      rw [List.map_cons,
        show (if ((k, nv) : String × β).1 = k then (((k, nv) : String × β).1, n) else (k, nv)) = (k, n) from by simp]
      rw [lookup_cons_eq, lookup_cons_eq, if_neg hvw, if_neg hvw]
      exact ih
    · rw [List.map_cons,
        show (if ((k, nv) : String × β).1 = w then (((k, nv) : String × β).1, n) else (k, nv)) = (k, nv) from by simp [hk]]
      rw [lookup_cons_eq, lookup_cons_eq]
      by_cases hv : v = k
      · rw [if_pos hv, if_pos hv]
      · rw [if_neg hv, if_neg hv]
        exact ih

/-- The in-place value update of `bumpCount`/`upsert` sets the updated
key when it is present. -/
theorem lookup_map_update_self {β : Type} (m : List (String × β)) (w : String) (n : β)
    (h : (m.lookup w).isSome) :
    (m.map (fun p => if p.1 = w then (p.1, n) else p)).lookup w = some n := by
  induction m with
  | nil => simp at h
  | cons p t ih =>
    obtain ⟨k, nv⟩ := p
    rw [lookup_cons_eq] at h
    by_cases hk : w = k
    · subst hk
      rw [List.map_cons,
        show (if ((w, nv) : String × β).1 = w then (((w, nv) : String × β).1, n) else (w, nv)) = (w, n) from by simp]
      rw [lookup_cons_eq, if_pos rfl]
    · rw [if_neg hk] at h
      rw [List.map_cons,
        show (if ((k, nv) : String × β).1 = w then (((k, nv) : String × β).1, n) else (k, nv)) = (k, nv) from if_neg (fun hh : k = w => hk hh.symm)]
      rw [lookup_cons_eq, if_neg hk]
      exact ih h

/-- `bumpCount` sets the bumped key to its old count plus one. -/
theorem lookup_bumpCount_self (m : List (String × Nat)) (w : String) :
    (TextDiff.bumpCount m w).lookup w = some (TextDiff.getCount m w + 1) := by
  unfold TextDiff.bumpCount
  cases h : m.lookup w with
  | none =>
    rw [lookup_append_of_none m _ w h]
    simp [TextDiff.getCount, h, lookup_cons_eq]
  | some n =>
    rw [lookup_map_update_self m w (n + 1) (by simp [h])]
    simp [TextDiff.getCount, h]

/-- `bumpCount` leaves every other key's lookup unchanged. -/
theorem lookup_bumpCount_ne (m : List (String × Nat)) (w v : String) (hvw : v ≠ w) :
    (TextDiff.bumpCount m w).lookup v = m.lookup v := by
  unfold TextDiff.bumpCount
  cases h : m.lookup w with
  | none =>
    induction m with
    | nil => simp [lookup_cons_eq, hvw]
    | cons p t ih =>
      obtain ⟨k, b⟩ := p
      rw [lookup_cons_eq] at h
      rw [List.cons_append, lookup_cons_eq, lookup_cons_eq]
      by_cases hwk : w = k
      · simp [hwk] at h
      · rw [if_neg hwk] at h
        by_cases hv : v = k
        · rw [if_pos hv, if_pos hv]
        · rw [if_neg hv, if_neg hv]
          exact ih h
  | some n => rw [lookup_map_update m w v (n + 1) hvw]

/-- Mapping values (keeping keys) commutes with lookup. -/
theorem lookup_map_pair {β γ : Type} (m : List (String × β)) (f : String → β → γ) (w : String) :
    (m.map (fun p => (p.1, f p.1 p.2))).lookup w = (m.lookup w).map (f w) := by
  induction m with
  | nil => rfl
  | cons p t ih =>
    obtain ⟨k, b⟩ := p
    rw [List.map_cons]
    rw [lookup_cons_eq, lookup_cons_eq]
    by_cases h : w = k
    · subst h; simp
    · rw [if_neg h, if_neg h, ih]

/-- A `tfStep` on a word different from `w` keeps `w`'s lookup. -/
theorem lookup_tfStep_ne (stopWords : List String) (acc : List (String × Nat))
    (t w : String) (htw : t ≠ w) :
    (KeywordExtractor.tfStep stopWords acc t).lookup w = acc.lookup w := by
  unfold KeywordExtractor.tfStep
  split
  · exact lookup_bumpCount_ne acc t w (fun hh => htw hh.symm)
  · rfl

/-- The term-frequency fold of `extractKeywords`: a retained word (not a
stopword, longer than two characters) ends with its occurrence count in
the token list added to whatever the accumulator held. -/
theorem keywordTF_foldl (stopWords : List String) (w : String)
    (hstop : stopWords.contains w = false) (hlen : w.length > 2) :
    ∀ (toks : List String) (acc : List (String × Nat)),
      (toks.foldl (KeywordExtractor.tfStep stopWords) acc).lookup w
        = if w ∈ toks then some (TextDiff.getCount acc w + toks.count w) else acc.lookup w := by
  intro toks
  induction toks with
  | nil => intro acc; simp
  | cons t ts ih =>
    intro acc
    rw [List.foldl_cons]
    by_cases htw : t = w
    · subst htw
      have hcond : KeywordExtractor.tfStep stopWords acc t = TextDiff.bumpCount acc t := by
        unfold KeywordExtractor.tfStep
        rw [if_pos ⟨by rw [hstop]; decide, hlen⟩]
      rw [hcond, ih]
      have hbl := lookup_bumpCount_self acc t
      have hbc : TextDiff.getCount (TextDiff.bumpCount acc t) t = TextDiff.getCount acc t + 1 := by
        unfold TextDiff.getCount
        rw [hbl]
        rfl
      by_cases hmem : t ∈ ts
      · rw [if_pos hmem, if_pos (List.mem_cons_self t ts), hbc]
        have hcn : (t :: ts).count t = ts.count t + 1 := by simp [List.count_cons]
        rw [hcn]
        congr 1
        omega
      · rw [if_neg hmem, if_pos (List.mem_cons_self t ts), hbl]
        have h0 : ts.count t = 0 := List.count_eq_zero.mpr hmem
        have hcn : (t :: ts).count t = 1 := by simp [List.count_cons, h0]
        rw [hcn]
    · rw [ih]
      have hstep := lookup_tfStep_ne stopWords acc t w htw
      have hgc : TextDiff.getCount (KeywordExtractor.tfStep stopWords acc t) w
          = TextDiff.getCount acc w := by
        unfold TextDiff.getCount
        rw [hstep]
      have hcnt : (t :: ts).count w = ts.count w := by
        rw [List.count_cons]
        have hb : (t == w) = false := beq_eq_false_iff_ne.mpr htw
        rw [hb]
        simp
      by_cases hm : w ∈ ts
      · rw [if_pos hm, if_pos (List.mem_cons_of_mem t hm), hgc, hcnt]
      · have hnm : ¬ w ∈ t :: ts := by
          rw [List.mem_cons]
          rintro (hh | hh)
          · exact htw hh.symm
          · exact hm hh
        rw [if_neg hm, if_neg hnm, hstep]

/-- C8 counterexample: with the built-in fallback stopword set and a
preloaded IDF map that stores the value `0` for the term `"fox"`, the
score of `"fox"` in the text `"fox"` is `1 · 1.5 = 3/2`, not the claimed
`1 · 0 = 0`: the `|| 1.5` fallback also replaces a *stored* IDF of `0`. -/
theorem keywordScore_zero_idf_counterexample :
    (KeywordExtractor.keywordScores KeywordExtractor.fallbackStopwords
        [("fox", 0)] "fox").lookup "fox" = some (3 / 2) ∧
    ((3 / 2 : ℚ) ≠ (1 / 1 : ℚ) * 0) := by
  constructor
  · unfold KeywordExtractor.keywordScores
    rw [show KeywordExtractor.keywordTF KeywordExtractor.fallbackStopwords "fox" = [("fox", 1)] from rfl]
    rw [List.map_cons, List.map_nil, lookup_cons_eq, if_pos rfl]
    rw [show (KeywordExtractor.keywordTokens "fox").length = 1 from rfl]
    rw [show KeywordExtractor.idfLookup [("fox", 0)] "fox" = 1.5 from rfl]
    norm_num
  · norm_num

/-- C8 amended: for every retained term (in the token list, not a
stopword, length > 2), the score map of keyword extraction assigns
`(rawCount / totalTokenCount) · IDF`, where the IDF is the value stored
in the preloaded map when the term is present with a *nonzero* value, and
the `1.5` default when the term is absent — or stored as `0`
(`idfLookup`, rendering the source's `get(word) || 1.5`). -/
theorem keywordScore_amended (stopWords : List String) (idfMap : List (String × ℚ))
    (text : String) (w : String)
    (hmem : w ∈ KeywordExtractor.keywordTokens text)
    (hstop : stopWords.contains w = false) (hlen : w.length > 2) :
    (KeywordExtractor.keywordScores stopWords idfMap text).lookup w =
      some ((((KeywordExtractor.keywordTokens text).count w : ℚ) /
             ((KeywordExtractor.keywordTokens text).length : ℚ)) *
            KeywordExtractor.idfLookup idfMap w) := by
  unfold KeywordExtractor.keywordScores KeywordExtractor.keywordTF
  rw [lookup_map_pair _
    (fun (k : String) (n : Nat) => ((n : ℚ) / ((KeywordExtractor.keywordTokens text).length : ℚ)) *
      KeywordExtractor.idfLookup idfMap k) w]
  rw [keywordTF_foldl stopWords w hstop hlen (KeywordExtractor.keywordTokens text) []]
  rw [if_pos hmem]
  simp [TextDiff.getCount]

/-- Witness for `keywordScore_amended`: the word `"jumping"` occurring
twice among four tokens, with IDF 2 in the map. -/
theorem keywordScore_amended_witness :
    (KeywordExtractor.keywordScores KeywordExtractor.fallbackStopwords
        [("jumping", 2)] "jumping fox jumping a").lookup "jumping" =
      some ((((KeywordExtractor.keywordTokens "jumping fox jumping a").count "jumping" : ℚ) /
             ((KeywordExtractor.keywordTokens "jumping fox jumping a").length : ℚ)) *
            KeywordExtractor.idfLookup [("jumping", 2)] "jumping") :=
  keywordScore_amended KeywordExtractor.fallbackStopwords [("jumping", 2)]
    "jumping fox jumping a" "jumping" (by decide) (by decide) (by decide)

/-- Membership in the dedup accumulator: kept iff in the list and not
already seen. -/
theorem mem_jsDedupAux (seen l : List String) (v : String) :
    v ∈ jsDedupAux seen l ↔ v ∈ l ∧ v ∉ seen := by
  induction l generalizing seen with
  | nil => simp [jsDedupAux]
  | cons x xs ih =>
    rw [jsDedupAux]
    by_cases hx : x ∈ seen
    · rw [if_pos hx, ih]
      constructor
      · rintro ⟨hv, hs⟩
        exact ⟨List.mem_cons_of_mem x hv, hs⟩
      · rintro ⟨hv, hs⟩
        rcases List.mem_cons.mp hv with hv | hv
        · subst hv; exact absurd hx hs
        · exact ⟨hv, hs⟩
    · rw [if_neg hx]
      rw [List.mem_cons, ih]
      constructor
      · rintro (hv | ⟨hv, hs⟩)
        · subst hv; exact ⟨List.mem_cons_self v xs, hx⟩
        · refine ⟨List.mem_cons_of_mem x hv, fun hh => hs (List.mem_cons_of_mem x hh)⟩
      · rintro ⟨hv, hs⟩
        rcases List.mem_cons.mp hv with hv | hv
        · exact Or.inl hv
        · by_cases hvx : v = x
          · exact Or.inl hvx
          · exact Or.inr ⟨hv, fun hh => by
              rcases List.mem_cons.mp hh with hh | hh
              · exact hvx hh
              · exact hs hh⟩

/-- `jsDedup` keeps exactly the elements of the list. -/
theorem mem_jsDedup (l : List String) (v : String) : v ∈ jsDedup l ↔ v ∈ l := by
  rw [jsDedup, mem_jsDedupAux]
  simp

/-- `jsDedupAux` produces no duplicates. -/
theorem nodup_jsDedupAux (seen l : List String) : (jsDedupAux seen l).Nodup := by
  induction l generalizing seen with
  | nil => simp [jsDedupAux]
  | cons x xs ih =>
    rw [jsDedupAux]
    by_cases hx : x ∈ seen
    · rw [if_pos hx]; exact ih seen
    · rw [if_neg hx]
      refine List.Nodup.cons ?_ (ih (x :: seen))
      intro hmem
      exact ((mem_jsDedupAux (x :: seen) xs x).mp hmem).2 (List.mem_cons_self x seen)

/-- `jsDedup` produces no duplicates. -/
theorem nodup_jsDedup (l : List String) : (jsDedup l).Nodup :=
  nodup_jsDedupAux [] l

/-- A lookup succeeds exactly on the keys of an association list. -/
theorem lookup_isSome_iff_mem_keys {β : Type} (m : List (String × β)) (w : String) :
    (m.lookup w).isSome ↔ w ∈ m.map Prod.fst := by
  induction m with
  | nil => simp
  | cons p t ih =>
    obtain ⟨k, b⟩ := p
    rw [lookup_cons_eq, List.map_cons, List.mem_cons]
    by_cases h : w = k
    · simp [h]
    · rw [if_neg h]
      simp only [h, false_or]
      exact ih

/-- The `countWords` fold of `TextDiff.compare`: every word ends with its
occurrence count added to whatever the accumulator held. -/
theorem countWords_foldl (w : String) :
    ∀ (ws : List String) (acc : List (String × Nat)),
      (ws.foldl TextDiff.bumpCount acc).lookup w
        = if w ∈ ws then some (TextDiff.getCount acc w + ws.count w) else acc.lookup w := by
  intro ws
  induction ws with
  | nil => intro acc; simp
  | cons t ts ih =>
    intro acc
    rw [List.foldl_cons]
    by_cases htw : t = w
    · subst htw
      rw [ih]
      have hbl := lookup_bumpCount_self acc t
      have hbc : TextDiff.getCount (TextDiff.bumpCount acc t) t = TextDiff.getCount acc t + 1 := by
        unfold TextDiff.getCount
        rw [hbl]
        rfl
      by_cases hmem : t ∈ ts
      · rw [if_pos hmem, if_pos (List.mem_cons_self t ts), hbc]
        have hcn : (t :: ts).count t = ts.count t + 1 := by simp [List.count_cons]
        rw [hcn]
        congr 1
        omega
      · rw [if_neg hmem, if_pos (List.mem_cons_self t ts), hbl]
        have h0 : ts.count t = 0 := List.count_eq_zero.mpr hmem
        have hcn : (t :: ts).count t = 1 := by simp [List.count_cons, h0]
        rw [hcn]
    · rw [ih]
      have hstep := lookup_bumpCount_ne acc t w (fun hh => htw hh.symm)
      have hgc : TextDiff.getCount (TextDiff.bumpCount acc t) w = TextDiff.getCount acc w := by
        unfold TextDiff.getCount
        rw [hstep]
      have hcnt : (t :: ts).count w = ts.count w := by
        rw [List.count_cons]
        have hb : (t == w) = false := beq_eq_false_iff_ne.mpr htw
        rw [hb]
        simp
      by_cases hm : w ∈ ts
      · rw [if_pos hm, if_pos (List.mem_cons_of_mem t hm), hgc, hcnt]
      · have hnm : ¬ w ∈ t :: ts := by
          rw [List.mem_cons]
          rintro (hh | hh)
          · exact htw hh.symm
          · exact hm hh
        rw [if_neg hm, if_neg hnm, hstep]

/-- The word-count map of `TextDiff.compare` realises `List.count`. -/
theorem getCount_countWords (ws : List String) (w : String) :
    TextDiff.getCount (TextDiff.countWords ws) w = ws.count w := by
  unfold TextDiff.getCount TextDiff.countWords
  rw [countWords_foldl w ws []]
  by_cases h : w ∈ ws
  · rw [if_pos h]
    simp [TextDiff.getCount]
  · rw [if_neg h]
    rw [List.count_eq_zero.mpr h]
    rfl

/-- The keys of the word-count map are exactly the words. -/
theorem mem_keys_countWords (ws : List String) (w : String) :
    w ∈ (TextDiff.countWords ws).map Prod.fst ↔ w ∈ ws := by
  rw [← lookup_isSome_iff_mem_keys]
  unfold TextDiff.countWords
  rw [countWords_foldl w ws []]
  by_cases h : w ∈ ws
  · simp [h]
  · simp [h]

/-- The length of a `flatMap` of replicates is the sum of the counts. -/
theorem length_flatMap_replicate (d : List String) (f : String → Nat) :
    (d.flatMap (fun w => List.replicate (f w) w)).length = (d.map f).sum := by
  rw [List.length_flatMap]
  congr 1
  apply List.map_congr_left
  intro w _
  simp

/-- Summing the pairwise minimum of the occurrence counts over any
duplicate-free enumeration of the words of both lists gives the size of
the multiset intersection. -/
theorem sum_min_counts (w1 w2 d : List String) (hd : d.Nodup)
    (hmem : ∀ x, x ∈ d ↔ x ∈ w1 ∨ x ∈ w2) :
    (d.map (fun w => min (w1.count w) (w2.count w))).sum
      = Multiset.card ((w1 : Multiset String) ∩ (w2 : Multiset String)) := by
  have hpt : ∀ x : String,
      Multiset.count x ((w1 : Multiset String) ∩ (w2 : Multiset String))
        = min (w1.count x) (w2.count x) := by
    intro x
    rw [Multiset.count_inter, Multiset.coe_count, Multiset.coe_count]
  have hsub : ((w1 : Multiset String) ∩ (w2 : Multiset String)).toFinset ⊆ d.toFinset := by
    intro x hx
    have hx' := Multiset.mem_toFinset.mp hx
    have hx1 : x ∈ (w1 : Multiset String) := (Multiset.mem_inter.mp hx').1
    exact List.mem_toFinset.mpr ((hmem x).mpr (Or.inl (Multiset.mem_coe.mp hx1)))
  have hzero : ∀ x ∈ d.toFinset,
      x ∉ ((w1 : Multiset String) ∩ (w2 : Multiset String)).toFinset →
      Multiset.count x ((w1 : Multiset String) ∩ (w2 : Multiset String)) = 0 := by
    intro x _ hx
    exact Multiset.count_eq_zero.mpr (fun hmem' => hx (Multiset.mem_toFinset.mpr hmem'))
  calc (d.map (fun w => min (w1.count w) (w2.count w))).sum
      = ∑ x in d.toFinset, min (w1.count x) (w2.count x) :=
        (List.sum_toFinset _ hd).symm
    _ = ∑ x in d.toFinset,
          Multiset.count x ((w1 : Multiset String) ∩ (w2 : Multiset String)) :=
        Finset.sum_congr rfl (fun x _ => (hpt x).symm)
    _ = ∑ x in ((w1 : Multiset String) ∩ (w2 : Multiset String)).toFinset,
          Multiset.count x ((w1 : Multiset String) ∩ (w2 : Multiset String)) :=
        (Finset.sum_subset hsub hzero).symm
    _ = Multiset.card ((w1 : Multiset String) ∩ (w2 : Multiset String)) :=
        Multiset.toFinset_sum_count_eq _

/-- The `unchanged` list of `TextDiff.compare` has exactly
`sharedWordCount` elements. -/
theorem unchanged_length_eq (A B : String) :
    ((jsDedup ((TextDiff.countWords (jsWords A)).map Prod.fst ++
               (TextDiff.countWords (jsWords B)).map Prod.fst)).flatMap
      (fun w => List.replicate
        (min (TextDiff.getCount (TextDiff.countWords (jsWords A)) w)
             (TextDiff.getCount (TextDiff.countWords (jsWords B)) w)) w)).length
    = sharedWordCount A B := by
  have hfun : (fun w => List.replicate
        (min (TextDiff.getCount (TextDiff.countWords (jsWords A)) w)
             (TextDiff.getCount (TextDiff.countWords (jsWords B)) w)) w)
      = (fun w => List.replicate (min ((jsWords A).count w) ((jsWords B).count w)) w) := by
    funext w
    rw [getCount_countWords, getCount_countWords]
  rw [hfun, length_flatMap_replicate, sharedWordCount]
  apply sum_min_counts
  · exact nodup_jsDedup _
  · intro x
    rw [mem_jsDedup, List.mem_append, mem_keys_countWords, mem_keys_countWords]

/-- The similarity computed by `TextDiff.compare` in terms of the shared
word count. -/
theorem compare_similarity_eq (A B : String) :
    (TextDiff.compare A B).similarity =
      2 * (sharedWordCount A B : ℚ) /
        (((jsWords A).length : ℚ) + ((jsWords B).length : ℚ)) * 100 := by
  simp only [TextDiff.compare]
  rw [unchanged_length_eq A B]

/-- Shared word count is symmetric. -/
theorem sharedWordCount_comm (A B : String) : sharedWordCount A B = sharedWordCount B A := by
  unfold sharedWordCount
  rw [Multiset.inter_comm]

/-- A duplicate-free key enumeration built from the two sides in either
order enumerates the same set, so a `flatMap` over it is a permutation. -/
theorem flatMap_dedup_keys_perm (wA wB : List String) (f : String → List String) :
    List.Perm
      ((jsDedup ((TextDiff.countWords wA).map Prod.fst ++ (TextDiff.countWords wB).map Prod.fst)).flatMap f)
      ((jsDedup ((TextDiff.countWords wB).map Prod.fst ++ (TextDiff.countWords wA).map Prod.fst)).flatMap f) := by
  apply List.Perm.flatMap_right
  apply (List.perm_ext_iff_of_nodup (nodup_jsDedup _) (nodup_jsDedup _)).mpr
  intro a
  rw [mem_jsDedup, mem_jsDedup, List.mem_append, List.mem_append]
  tauto

/-- C4 counterexample: a whitespace-only text is a non-empty string, yet
`compare` of it with itself reports similarity `0`, not `100` (both word
lists are empty, and the `|| 0` NaN-guard yields `0`). -/
theorem compare_whitespace_counterexample :
    ((" " : String) ≠ "") ∧
    (TextDiff.compare " " " ").similarity = 0 ∧
    ((0 : ℚ) ≠ 100) := by
  refine ⟨by decide, ?_, by norm_num⟩
  rw [compare_similarity_eq]
  rw [show jsWords " " = [] from by decide]
  rw [show sharedWordCount " " " " = 0 from by decide]
  norm_num

/-- C4 amended: for every pair of texts the similarity equals
`100 × 2 × shared / (|A| + |B|)` over the whitespace-split word
multisets (with the convention `x / 0 = 0`, matching the source's
`|| 0` guard, which makes it `0` when both texts have no words — in
particular when both are empty); `compare(A, A).similarity = 100` for
every `A` that contains at least one word (a non-empty string that is
all whitespace has no words and yields `0`, see the counterexample). -/
theorem compare_similarity_spec :
    (∀ A B : String, (TextDiff.compare A B).similarity =
      100 * (2 * (sharedWordCount A B : ℚ)) /
        (((jsWords A).length : ℚ) + ((jsWords B).length : ℚ))) ∧
    (∀ A : String, jsWords A ≠ [] → (TextDiff.compare A A).similarity = 100) ∧
    (TextDiff.compare "" "").similarity = 0 := by
  refine ⟨?_, ?_, ?_⟩
  · intro A B
    rw [compare_similarity_eq]
    ring
  · intro A hA
    rw [compare_similarity_eq]
    have hshared : sharedWordCount A A = (jsWords A).length := by
      unfold sharedWordCount
      rw [show ((jsWords A : Multiset String) ∩ (jsWords A : Multiset String)) = (jsWords A : Multiset String) from by
        ext a
        rw [Multiset.count_inter]
        exact min_self _]
      exact Multiset.coe_card _
    rw [hshared]
    have hpos : (0 : ℚ) < ((jsWords A).length : ℚ) := by
      have : 0 < (jsWords A).length := List.length_pos.mpr hA
      exact_mod_cast this
    field_simp
    ring
  · rw [compare_similarity_eq]
    rw [show jsWords "" = [] from rfl]
    rw [show sharedWordCount "" "" = 0 from rfl]
    norm_num

/-- Witness for `compare_similarity_spec`: the one-word text `"ab"`
compared with itself has similarity 100. -/
theorem compare_similarity_spec_witness :
    jsWords "ab" ≠ [] ∧ (TextDiff.compare "ab" "ab").similarity = 100 :=
  ⟨by decide, compare_similarity_spec.2.1 "ab" (by decide)⟩

/-- C10: `TextDiff.compare` is symmetric up to swapping roles: equal
similarity, the added multiset of one direction is the removed multiset
of the other (and vice versa), and the unchanged multisets agree. -/
theorem compare_symmetric (A B : String) :
    (TextDiff.compare A B).similarity = (TextDiff.compare B A).similarity ∧
    ((TextDiff.compare A B).wordDifference.added : Multiset String) =
      ((TextDiff.compare B A).wordDifference.removed : Multiset String) ∧
    ((TextDiff.compare A B).wordDifference.removed : Multiset String) =
      ((TextDiff.compare B A).wordDifference.added : Multiset String) ∧
    ((TextDiff.compare A B).wordDifference.unchanged : Multiset String) =
      ((TextDiff.compare B A).wordDifference.unchanged : Multiset String) := by
  refine ⟨?_, ?_, ?_, ?_⟩
  · rw [compare_similarity_eq, compare_similarity_eq, sharedWordCount_comm]
    rw [add_comm (((jsWords A).length : ℚ)) (((jsWords B).length : ℚ))]
  · simp only [TextDiff.compare]
    exact Multiset.coe_eq_coe.mpr (flatMap_dedup_keys_perm (jsWords A) (jsWords B) _)
  · simp only [TextDiff.compare]
    exact Multiset.coe_eq_coe.mpr (flatMap_dedup_keys_perm (jsWords A) (jsWords B) _)
  · simp only [TextDiff.compare]
    have hfun : (fun w => List.replicate
          (min (TextDiff.getCount (TextDiff.countWords (jsWords A)) w)
               (TextDiff.getCount (TextDiff.countWords (jsWords B)) w)) w)
        = (fun w => List.replicate
          (min (TextDiff.getCount (TextDiff.countWords (jsWords B)) w)
               (TextDiff.getCount (TextDiff.countWords (jsWords A)) w)) w) := by
      funext w
      rw [min_comm]
    rw [hfun]
    exact Multiset.coe_eq_coe.mpr (flatMap_dedup_keys_perm (jsWords A) (jsWords B) _)

/-- `ceilHalf` peels two units at a time. -/
theorem ceilHalf_add_two (n : Nat) : TextStatistics.ceilHalf (n + 2) = TextStatistics.ceilHalf n + 1 := by
  unfold TextStatistics.ceilHalf
  omega

/-- A non-vowel head contributes no vowel run. -/
theorem maximalVowelRuns_cons_not_vowel (c : Char) (l : List Char)
    (h : ¬ TextStatistics.isVowel c) :
    TextStatistics.maximalVowelRuns (c :: l) = TextStatistics.maximalVowelRuns l := by
  rw [TextStatistics.maximalVowelRuns]
  simp [h]

/-- A vowel head before a non-vowel opens a fresh run of length one. -/
theorem maximalVowelRuns_cons_vowel_break (c d : Char) (l : List Char)
    (hc : TextStatistics.isVowel c) (hd : ¬ TextStatistics.isVowel d) :
    TextStatistics.maximalVowelRuns (c :: d :: l) =
      1 :: TextStatistics.maximalVowelRuns (d :: l) := by
  rw [TextStatistics.maximalVowelRuns]
  simp [hc, hd]

/-- The run list of a vowel-headed list is non-empty (one unfolding of
the definition; every branch yields a cons). -/
theorem maximalVowelRuns_cons_vowel_shape (c : Char) (l : List Char)
    (hc : TextStatistics.isVowel c) :
    ∃ n ts, TextStatistics.maximalVowelRuns (c :: l) = n :: ts := by
  rw [TextStatistics.maximalVowelRuns]
  simp only [hc, if_true]
  cases hl : l.head? with
  | none => exact ⟨1, [], rfl⟩
  | some d =>
    by_cases hd : TextStatistics.isVowel d
    · simp only [hd, if_true]
      cases hr : TextStatistics.maximalVowelRuns l with
      | nil => exact ⟨1, [], rfl⟩
      | cons n t => exact ⟨n + 1, t, rfl⟩
    · simp only [hd, if_false]
      exact ⟨1, _, rfl⟩

/-- Two adjacent vowels extend the head run. -/
theorem maximalVowelRuns_cons_vowel_vowel (c d : Char) (l : List Char)
    (hc : TextStatistics.isVowel c) (hd : TextStatistics.isVowel d)
    (n : Nat) (ts : List Nat)
    (h : TextStatistics.maximalVowelRuns (d :: l) = n :: ts) :
    TextStatistics.maximalVowelRuns (c :: d :: l) = (n + 1) :: ts := by
  rw [TextStatistics.maximalVowelRuns]
  simp only [hc, if_true, List.head?_cons, hd, if_true, h]

/-- The greedy `[aeiouy]{1,2}` scan counts `⌈k / 2⌉` matches per maximal
vowel run of length `k`: the match count equals the sum of the rounded-up
half-lengths of the runs. -/
theorem vowelGroupCount_eq_runs (l : List Char) :
    TextStatistics.vowelGroupCount l =
      ((TextStatistics.maximalVowelRuns l).map TextStatistics.ceilHalf).sum := by
  induction l using TextStatistics.vowelGroupCount.induct with
  | case1 => rfl
  | case2 c hc =>
    rw [TextStatistics.vowelGroupCount, TextStatistics.maximalVowelRuns]
    simp [hc]
    rfl
  | case3 c hc =>
    rw [TextStatistics.vowelGroupCount, TextStatistics.maximalVowelRuns]
    simp [hc, TextStatistics.maximalVowelRuns]
  | case4 x y rest hx hy ih =>
    rw [TextStatistics.vowelGroupCount]
    simp only [hx, hy, if_true]
    rw [ih]
    cases hrest : rest with
    | nil =>
      rw [maximalVowelRuns_cons_vowel_vowel x y []
        hx hy 1 [] (by rw [TextStatistics.maximalVowelRuns]; simp [hy])]
      simp [TextStatistics.maximalVowelRuns, TextStatistics.ceilHalf]
    | cons e t =>
      by_cases he : TextStatistics.isVowel e
      · obtain ⟨n, ts, hshape⟩ := maximalVowelRuns_cons_vowel_shape e t he
        have hyruns : TextStatistics.maximalVowelRuns (y :: e :: t) = (n + 1) :: ts :=
          maximalVowelRuns_cons_vowel_vowel y e t hy he n ts hshape
        rw [maximalVowelRuns_cons_vowel_vowel x y (e :: t) hx hy (n + 1) ts hyruns]
        rw [hshape]
        simp only [List.map_cons, List.sum_cons]
        rw [show n + 1 + 1 = n + 2 from rfl, ceilHalf_add_two]
        omega
      · have hyruns : TextStatistics.maximalVowelRuns (y :: e :: t) =
            1 :: TextStatistics.maximalVowelRuns (e :: t) :=
          maximalVowelRuns_cons_vowel_break y e t hy he
        rw [maximalVowelRuns_cons_vowel_vowel x y (e :: t) hx hy 1 _ hyruns]
        rw [maximalVowelRuns_cons_not_vowel e t he]
        simp only [List.map_cons, List.sum_cons]
        rw [show (1 : Nat) + 1 = 0 + 2 from rfl, ceilHalf_add_two]
        simp [TextStatistics.ceilHalf]
  | case5 x y rest hx hy ih =>
    rw [TextStatistics.vowelGroupCount]
    simp only [hx, hy, if_true, if_false]
    rw [ih, maximalVowelRuns_cons_vowel_break x y rest hx hy]
    simp [TextStatistics.ceilHalf]
  | case6 x y rest hx ih =>
    rw [TextStatistics.vowelGroupCount]
    rw [if_neg hx]
    rw [ih, maximalVowelRuns_cons_not_vowel x (y :: rest) hx]

/-- C6 counterexample: the word `"table"` has 2 syllables by the source
counter (the silent-e class `[^laeiouy]` excludes `l`, so `"le"` is not
stripped and the runs `a`, `e` both count), but 1 by the claim's wording
(any non-vowel before the final `e`, so `"le"` is stripped, leaving the
single run `a`). -/
theorem countSyllables_claim_counterexample :
    TextStatistics.countSyllables "table" = 2 ∧
    TextStatistics.claimSyllables "table" = 1 ∧
    (2 : Nat) ≠ 1 := by
  refine ⟨by decide, by decide, by decide⟩

/-- C6 amended: the syllable counter returns 0 for the empty word, 1 for
(lower-cased, trimmed) words of length ≤ 3, and otherwise strips a
trailing `[^laeiouy]es`, bare `ed`, or `[^laeiouy]e` — the lead character
of the silent-e pattern is any character that is neither a vowel nor `l`
— then counts the maximal vowel runs, a run of length `k` counting as
`⌈k / 2⌉`, with a minimum of 1. -/
theorem countSyllables_amended (w : String) :
    TextStatistics.countSyllables w = TextStatistics.amendedSyllables w := by
  unfold TextStatistics.countSyllables TextStatistics.amendedSyllables
  simp only [vowelGroupCount_eq_runs]

/-- One-step unfolding of the sentence scanner at positive fuel. -/
theorem sentenceScanAux_succ (fuel : Nat) (l : List Char) :
    sentenceScanAux (fuel + 1) l =
      match (l.dropWhile isTerminalChar).dropWhile (fun c => !isTerminalChar c) with
      | [] => ([], l)
      | rc :: rt =>
        ((((l.dropWhile isTerminalChar).takeWhile (fun c => !isTerminalChar c)) ++
          ((rc :: rt).takeWhile isTerminalChar)) ::
            (sentenceScanAux fuel ((rc :: rt).dropWhile isTerminalChar)).1,
         (sentenceScanAux fuel ((rc :: rt).dropWhile isTerminalChar)).2) := by
  rw [sentenceScanAux]
  cases h : (l.dropWhile isTerminalChar).dropWhile (fun c => !isTerminalChar c) with
  | nil => simp [h]
  | cons rc rt => simp [h]

/-- The head of a non-empty `dropWhile` fails the predicate. -/
theorem dropWhile_head_false (p : Char → Bool) (l : List Char) (c : Char) (t : List Char)
    (h : l.dropWhile p = c :: t) : p c = false := by
  induction l with
  | nil => simp at h
  | cons x xs ih =>
    rw [List.dropWhile_cons] at h
    by_cases hx : p x
    · rw [if_pos hx] at h
      exact ih h
    · rw [if_neg hx] at h
      injection h with h1 _
      subst h1
      exact Bool.eq_false_iff.mpr hx

/-- `getLast?` skips a cons onto a non-empty tail. -/
theorem getLast?_cons_of_ne_nil {α : Type} (x : α) (xs : List α) (h : xs ≠ []) :
    (x :: xs).getLast? = xs.getLast? := by
  cases xs with
  | nil => exact absurd rfl h
  | cons y ys => rfl

/-- `getLast?` of an append with a non-empty right part. -/
theorem getLast?_append_right {α : Type} (l₁ l₂ : List α) (h : l₂ ≠ []) :
    (l₁ ++ l₂).getLast? = l₂.getLast? := by
  rw [List.getLast?_append]
  cases hh : l₂.getLast? with
  | none => exact absurd (by simpa using hh) h
  | some c => rfl

/-- Every element of a strictly increasing list is at most its last
element. -/
theorem le_getLast_of_pairwise_lt (L : List Nat) (h : L.Pairwise (· < ·)) (x : Nat)
    (hx : x ∈ L) (hne : L ≠ []) : x ≤ L.getLast hne := by
  induction L with
  | nil => simp at hx
  | cons a t ih =>
    rcases List.mem_cons.mp hx with hx | hx
    · subst hx
      cases t with
      | nil => simp [List.getLast]
      | cons b ts =>
        rw [List.getLast_cons (by simp)]
        have hlt : x < (b :: ts).getLast (by simp) :=
          (List.pairwise_cons.mp h).1 _ (List.getLast_mem (by simp))
        omega
    · have hne' : t ≠ [] := List.ne_nil_of_mem hx
      rw [List.getLast_cons hne']
      exact ih (List.pairwise_cons.mp h).2 hx hne'

/-- `getLast?` of a filtered range is the greatest index satisfying the
predicate (when a maximum exists). -/
theorem getLast?_filter_range_eq (n k : Nat) (p : Nat → Bool) (hk : k < n)
    (hpk : p k = true) (hmax : ∀ i, i < n → p i = true → i ≤ k) :
    ((List.range n).filter p).getLast? = some k := by
  have hkL : k ∈ (List.range n).filter p :=
    List.mem_filter.mpr ⟨List.mem_range.mpr hk, hpk⟩
  have hne : (List.range n).filter p ≠ [] := List.ne_nil_of_mem hkL
  rw [List.getLast?_eq_getLast _ hne]
  have hmem := List.getLast_mem hne
  have h1 : ((List.range n).filter p).getLast hne ≤ k := by
    have hf := List.mem_filter.mp hmem
    exact hmax _ (List.mem_range.mp hf.1) hf.2
  have h2 : k ≤ ((List.range n).filter p).getLast hne :=
    le_getLast_of_pairwise_lt _ ((List.pairwise_lt_range n).filter p) k hkL hne
  rw [show ((List.range n).filter p).getLast hne = k from le_antisymm h1 h2]

/-- In a decomposition `a ++ m ++ r` where `m` ends with a terminal
character and `r` contains none, the rightmost occurrence of `m` in the
whole string starts exactly at `a.length`: `lastIndexOf` recovers the
position of the final regex match. -/
theorem jsLastIndexOf_decomp (l a m r : List Char) (hl : l = a ++ (m ++ r))
    (hm : m ≠ []) (c : Char) (hlast : m.getLast? = some c) (hc : isTerminalChar c = true)
    (hr : ∀ x ∈ r, isTerminalChar x = false) :
    jsLastIndexOf l m = (a.length : Int) := by
  have hmpos : 1 ≤ m.length := by
    cases m with
    | nil => exact absurd rfl hm
    | cons _ _ => simp
  have hlen : l.length = a.length + m.length + r.length := by
    subst hl; simp [List.length_append]; omega
  have hcm : m.getLast hm = c := by
    rw [List.getLast?_eq_getLast m hm] at hlast
    injection hlast
  have hmax : ∀ i, i < l.length + 1 →
      ((l.drop i).take m.length = m) → i ≤ a.length := by
    intro i hi hocc
    by_contra hgt
    push_neg at hgt
    have hdroplen : (l.drop i).length = l.length - i := List.length_drop i l
    have htklen : ((l.drop i).take m.length).length = min m.length (l.drop i).length :=
      List.length_take m.length (l.drop i)
    have hmle : m.length ≤ l.length - i := by
      rw [hocc] at htklen
      rw [hdroplen] at htklen
      omega
    have hj : m.length - 1 < m.length := by omega
    have hcj : m[m.length - 1] = c := by
      rw [← hcm, List.getLast_eq_getElem]
    have hj2 : m.length - 1 < ((l.drop i).take m.length).length := by
      rw [htklen, hdroplen]
      omega
    have hj3 : m.length - 1 < (l.drop i).length := by
      rw [hdroplen]
      omega
    have hstep1 : ((l.drop i).take m.length)[m.length - 1] = (l.drop i)[m.length - 1] :=
      List.getElem_take ..
    simp only [hocc] at hstep1
    have hidx : i + (m.length - 1) < l.length := by omega
    have hstep2 : (l.drop i)[m.length - 1] = l[i + (m.length - 1)] :=
      List.getElem_drop ..
    have hlc : l[i + (m.length - 1)] = c := by
      rw [← hstep2, ← hstep1, hcj]
    have hge : (a ++ m).length ≤ i + (m.length - 1) := by
      rw [List.length_append]
      omega
    have hl' : l = (a ++ m) ++ r := by rw [hl, List.append_assoc]
    have hidx' : i + (m.length - 1) < ((a ++ m) ++ r).length := by rw [← hl']; exact hidx
    have hbound : i + (m.length - 1) - (a ++ m).length < r.length := by
      rw [List.length_append] at hidx' ⊢
      rw [List.length_append] at hidx'
      omega
    have hrc : ((a ++ m) ++ r)[i + (m.length - 1)]
        = r[i + (m.length - 1) - (a ++ m).length] := List.getElem_append_right hge
    have hmem : r[i + (m.length - 1) - (a ++ m).length] ∈ r := List.getElem_mem _
    have hfalse : isTerminalChar c = false := by
      rw [← hlc]
      have hlc2 : l[i + (m.length - 1)] = ((a ++ m) ++ r)[i + (m.length - 1)] := by
        congr 1
      rw [hlc2, hrc]
      exact hr _ hmem
    rw [hc] at hfalse
    cases hfalse
  unfold jsLastIndexOf
  rw [getLast?_filter_range_eq (l.length + 1) a.length _ (by omega) ?hp ?hmx]
  case hp =>
    rw [decide_eq_true_eq]
    subst hl
    rw [List.drop_left a (m ++ r), List.take_left m r]
  case hmx =>
    intro i hi hpi
    rw [decide_eq_true_eq] at hpi
    exact hmax i hi hpi

/-- If the scanner finds no match in a list whose head (if any) is
non-terminal, the whole list is free of terminal characters. -/
theorem sentenceScanAux_nil_all_nonterminal (fuel : Nat) (l : List Char)
    (hl : l.length < fuel)
    (hhead : ∀ c t, l = c :: t → isTerminalChar c = false)
    (hnil : (sentenceScanAux fuel l).1 = []) :
    ∀ x ∈ l, isTerminalChar x = false := by
  cases fuel with
  | zero => omega
  | succ fuel =>
    rw [sentenceScanAux_succ] at hnil
    cases hrest : (l.dropWhile isTerminalChar).dropWhile (fun c => !isTerminalChar c) with
    | cons rc rt =>
      rw [hrest] at hnil
      simp at hnil
    | nil =>
      have hD : l.dropWhile isTerminalChar = l := by
        cases l with
        | nil => rfl
        | cons c t =>
          rw [List.dropWhile_cons, if_neg (by simp [hhead c t rfl])]
      rw [hD] at hrest
      intro x hx
      have hall := List.dropWhile_eq_nil_iff.mp hrest x hx
      simpa using hall

/-- Structure of the sentence scanner: either no match was found and the
remainder is the whole input, or the input decomposes as
`a ++ lastMatch ++ remainder`, where the last match is non-empty and ends
with a terminal character and the remainder contains no terminal
character. -/
theorem sentenceScanAux_structure : ∀ (fuel : Nat) (l : List Char), l.length < fuel →
    ((sentenceScanAux fuel l).1 = [] ∧ (sentenceScanAux fuel l).2 = l) ∨
    (∃ a m, (sentenceScanAux fuel l).1.getLast? = some m ∧
      l = a ++ (m ++ (sentenceScanAux fuel l).2) ∧
      m ≠ [] ∧
      (∃ c, m.getLast? = some c ∧ isTerminalChar c = true) ∧
      (∀ x ∈ (sentenceScanAux fuel l).2, isTerminalChar x = false)) := by
  intro fuel
  induction fuel with
  | zero => intro l hl; omega
  | succ fuel ih =>
    intro l hl
    rw [sentenceScanAux_succ]
    cases hrest : (l.dropWhile isTerminalChar).dropWhile (fun c => !isTerminalChar c) with
    | nil => exact Or.inl ⟨rfl, rfl⟩
    | cons rc rt =>
      right
      have hrc : isTerminalChar rc = true := by
        have hh := dropWhile_head_false (fun c => !isTerminalChar c)
          (l.dropWhile isTerminalChar) rc rt hrest
        simpa using hh
      have hT : (rc :: rt).takeWhile isTerminalChar = rc :: rt.takeWhile isTerminalChar := by
        rw [List.takeWhile_cons, if_pos hrc]
      have hTne : (rc :: rt).takeWhile isTerminalChar ≠ [] := by
        rw [hT]; simp
      have hRA : (rc :: rt).dropWhile isTerminalChar = rt.dropWhile isTerminalChar := by
        rw [List.dropWhile_cons, if_pos hrc]
      have hlD : (l.dropWhile isTerminalChar).length ≤ l.length :=
        (List.dropWhile_sublist (p := isTerminalChar) (l := l)).length_le
      have hlR : (rc :: rt).length ≤ (l.dropWhile isTerminalChar).length := by
        rw [← hrest]
        exact (List.dropWhile_sublist (p := fun c => !isTerminalChar c)
          (l := l.dropWhile isTerminalChar)).length_le
      have hlRA : ((rc :: rt).dropWhile isTerminalChar).length ≤ rt.length := by
        rw [hRA]
        exact (List.dropWhile_sublist (p := isTerminalChar) (l := rt)).length_le
      have hfuel : ((rc :: rt).dropWhile isTerminalChar).length < fuel := by
        have : (rc :: rt).length = rt.length + 1 := by simp
        omega
      have hdecompL : l = l.takeWhile isTerminalChar ++ l.dropWhile isTerminalChar :=
        (List.takeWhile_append_dropWhile isTerminalChar l).symm
      have hdecompD : l.dropWhile isTerminalChar =
          (l.dropWhile isTerminalChar).takeWhile (fun c => !isTerminalChar c) ++ (rc :: rt) := by
        rw [← hrest]
        exact (List.takeWhile_append_dropWhile (fun c => !isTerminalChar c)
          (l.dropWhile isTerminalChar)).symm
      have hdecompR : (rc :: rt) =
          (rc :: rt).takeWhile isTerminalChar ++ (rc :: rt).dropWhile isTerminalChar :=
        (List.takeWhile_append_dropWhile isTerminalChar (rc :: rt)).symm
      have hTerm : ∃ c, ((rc :: rt).takeWhile isTerminalChar).getLast? = some c ∧
          isTerminalChar c = true := by
        refine ⟨((rc :: rt).takeWhile isTerminalChar).getLast hTne,
          List.getLast?_eq_getLast _ hTne, ?_⟩
        exact List.mem_takeWhile_imp (List.getLast_mem hTne)
      have hmne : (l.dropWhile isTerminalChar).takeWhile (fun c => !isTerminalChar c) ++
          (rc :: rt).takeWhile isTerminalChar ≠ [] := by
        intro hh
        exact hTne (List.append_eq_nil.mp hh).2
      have hmlast : ((l.dropWhile isTerminalChar).takeWhile (fun c => !isTerminalChar c) ++
          (rc :: rt).takeWhile isTerminalChar).getLast?
          = ((rc :: rt).takeWhile isTerminalChar).getLast? :=
        getLast?_append_right _ _ hTne
      rcases ih ((rc :: rt).dropWhile isTerminalChar) hfuel with
        ⟨hP1, hP2⟩ | ⟨a', m', hlast', hdec', hm'ne, hc', hr'⟩
      · refine ⟨l.takeWhile isTerminalChar,
          (l.dropWhile isTerminalChar).takeWhile (fun c => !isTerminalChar c) ++
            (rc :: rt).takeWhile isTerminalChar, ?_, ?_, hmne, ?_, ?_⟩
        · show (((l.dropWhile isTerminalChar).takeWhile (fun c => !isTerminalChar c) ++
              (rc :: rt).takeWhile isTerminalChar) ::
              (sentenceScanAux fuel ((rc :: rt).dropWhile isTerminalChar)).1).getLast? = _
          rw [hP1]
          rfl
        · show l = l.takeWhile isTerminalChar ++
            (((l.dropWhile isTerminalChar).takeWhile (fun c => !isTerminalChar c) ++
              (rc :: rt).takeWhile isTerminalChar) ++
              (sentenceScanAux fuel ((rc :: rt).dropWhile isTerminalChar)).2)
          rw [hP2]
          calc l = l.takeWhile isTerminalChar ++ l.dropWhile isTerminalChar := hdecompL
            _ = l.takeWhile isTerminalChar ++
                ((l.dropWhile isTerminalChar).takeWhile (fun c => !isTerminalChar c) ++ (rc :: rt)) := by
                rw [← hdecompD]
            _ = _ := by
                rw [hdecompR]
                simp [List.append_assoc]
        · rw [hmlast]
          exact hTerm
        · show ∀ x ∈ (sentenceScanAux fuel ((rc :: rt).dropWhile isTerminalChar)).2,
            isTerminalChar x = false
          rw [hP2]
          apply sentenceScanAux_nil_all_nonterminal fuel _ hfuel ?_ hP1
          intro c t hct
          exact dropWhile_head_false isTerminalChar (rc :: rt) c t hct
      · have hP1ne : (sentenceScanAux fuel ((rc :: rt).dropWhile isTerminalChar)).1 ≠ [] := by
          intro hh
          rw [hh] at hlast'
          simp at hlast'
        refine ⟨l.takeWhile isTerminalChar ++
            (((l.dropWhile isTerminalChar).takeWhile (fun c => !isTerminalChar c) ++
              (rc :: rt).takeWhile isTerminalChar) ++ a'), m', ?_, ?_, hm'ne, hc', hr'⟩
        · show (((l.dropWhile isTerminalChar).takeWhile (fun c => !isTerminalChar c) ++
              (rc :: rt).takeWhile isTerminalChar) ::
              (sentenceScanAux fuel ((rc :: rt).dropWhile isTerminalChar)).1).getLast? = some m'
          rw [getLast?_cons_of_ne_nil _ _ hP1ne]
          exact hlast'
        · show l = (l.takeWhile isTerminalChar ++
            (((l.dropWhile isTerminalChar).takeWhile (fun c => !isTerminalChar c) ++
              (rc :: rt).takeWhile isTerminalChar) ++ a')) ++
            (m' ++ (sentenceScanAux fuel ((rc :: rt).dropWhile isTerminalChar)).2)
          calc l = l.takeWhile isTerminalChar ++ l.dropWhile isTerminalChar := hdecompL
            _ = l.takeWhile isTerminalChar ++
                ((l.dropWhile isTerminalChar).takeWhile (fun c => !isTerminalChar c) ++ (rc :: rt)) := by
                rw [← hdecompD]
            _ = l.takeWhile isTerminalChar ++
                ((l.dropWhile isTerminalChar).takeWhile (fun c => !isTerminalChar c) ++
                  ((rc :: rt).takeWhile isTerminalChar ++ (rc :: rt).dropWhile isTerminalChar)) := by
                rw [← hdecompR]
            _ = l.takeWhile isTerminalChar ++
                ((l.dropWhile isTerminalChar).takeWhile (fun c => !isTerminalChar c) ++
                  ((rc :: rt).takeWhile isTerminalChar ++
                    (a' ++ (m' ++ (sentenceScanAux fuel ((rc :: rt).dropWhile isTerminalChar)).2)))) := by
                rw [← hdec']
            _ = _ := by simp [List.append_assoc]

/-- C5: the sentence counter equals the specification's policy — the
number of maximal runs of non-terminal characters followed by one or more
of `.!?`, plus one when trailing text remains after the last such run —
with 0 for empty or whitespace-only text; and the three quoted examples
hold. -/
theorem countSentences_spec :
    (∀ t : String, countSentences t = specSentenceCount t) ∧
    countSentences "This is one. This is two." = 2 ∧
    countSentences "" = 0 ∧
    countSentences "No terminal punctuation" = 1 ∧
    (∀ t : String, jsTrim t.data = [] → countSentences t = 0) := by
  refine ⟨?_, by decide, by decide, by decide, ?_⟩
  · intro t
    simp only [countSentences, specSentenceCount, sentenceScan]
    by_cases hl : (jsTrim t.data).isEmpty
    · rw [if_pos hl, if_pos hl]
    · rw [if_neg hl, if_neg hl]
      have hlne : jsTrim t.data ≠ [] := by
        intro hh
        rw [hh] at hl
        exact hl rfl
      have hie : (jsTrim t.data).isEmpty = false := by
        cases hjt : jsTrim t.data with
        | nil => exact absurd hjt hlne
        | cons _ _ => rfl
      rcases sentenceScanAux_structure ((jsTrim t.data).length + 1) (jsTrim t.data)
          (Nat.lt_succ_self _) with ⟨h1, h2⟩ | ⟨a, m, hlast, hdec, hm, hcterm, hr⟩
      · rw [h1]
        show ([] : List Char).length + (if (jsTrim t.data).length > 0 then 1 else 0)
          = ([] : List Char).length +
            (if (sentenceScanAux ((jsTrim t.data).length + 1) (jsTrim t.data)).2.isEmpty then 0 else 1)
        rw [h2, hie]
        have hpos : (jsTrim t.data).length > 0 := List.length_pos.mpr hlne
        rw [if_pos hpos]
        rfl
      · rw [hlast]
        show (sentenceScanAux ((jsTrim t.data).length + 1) (jsTrim t.data)).1.length +
            (if jsLastIndexOf (jsTrim t.data) m + (m.length : Int) < ((jsTrim t.data).length : Int)
             then 1 else 0)
          = (sentenceScanAux ((jsTrim t.data).length + 1) (jsTrim t.data)).1.length +
            (if (sentenceScanAux ((jsTrim t.data).length + 1) (jsTrim t.data)).2.isEmpty then 0 else 1)
        obtain ⟨c, hcl, hct⟩ := hcterm
        have hidx := jsLastIndexOf_decomp (jsTrim t.data) a m
          (sentenceScanAux ((jsTrim t.data).length + 1) (jsTrim t.data)).2 hdec hm c hcl hct hr
        rw [hidx]
        have hlen : (jsTrim t.data).length =
            a.length + m.length +
              (sentenceScanAux ((jsTrim t.data).length + 1) (jsTrim t.data)).2.length := by
          conv_lhs => rw [hdec]
          simp [List.length_append]
          omega
        cases hre : (sentenceScanAux ((jsTrim t.data).length + 1) (jsTrim t.data)).2 with
        | nil =>
          rw [hre] at hlen
          rw [show ([] : List Char).isEmpty = true from rfl]
          rw [if_pos rfl]
          rw [if_neg (by
            simp only [List.length_nil] at hlen
            omega)]
        | cons x xs =>
          rw [hre] at hlen
          rw [show (x :: xs).isEmpty = false from rfl]
          have hlen' : (jsTrim t.data).length = a.length + m.length + (xs.length + 1) := by
            simpa using hlen
          have hcond : ((a.length : Int) + (m.length : Int) < ((jsTrim t.data).length : Int)) := by
            omega
          rw [if_pos hcond, if_neg (show ¬(false = true) from by simp)]
  · intro t h
    simp only [countSentences, h, List.isEmpty_nil, if_true]

/-- Witness for `countSentences_spec` at a whitespace-only input. -/
theorem countSentences_spec_witness :
    jsTrim ("   " : String).data = [] ∧ countSentences "   " = 0 :=
  ⟨by decide, countSentences_spec.2.2.2.2 "   " (by decide)⟩
